import Mathlib

/-!
# Worker pool over two bounded message queues (`q1/main.c`)

A shallow embedding of `main` of `q1/main.c`: the task table, the worker loop
(lines 199-239), the coordinator loop of one round (lines 243-287) and the two
POSIX message queues they share, followed by the properties of the
specification that were checked against it.

Conventions of the embedding.

* `int` values are `Nat` (every counter stays within `0..N_TASKS`), the flag
  `is_sigusr1` and the return codes of `mq_send` are `Int`.
* The bounds `min`, `max`, `x_min`, `x_max` are `double`s that are only stored,
  copied and compared; they are the rationals that the finite doubles denote.
* The `double`s `result` and `time` are values of an arbitrary type `V`; the
  operations the program applies to them (`+=`, the cast `(int)`, the estimator
  `mc_integrate_1d`) are the fields of `Ext V`, so nothing is assumed about
  rounding.
* A C array of `n` cells is a function on `Fin n`.  A store through an index
  outside the array is undefined behaviour in C; `arrModify` leaves the array
  unchanged there.
* Function pointers are the selector `Fn`.
-/

namespace MessageQueueDemo

/-! ## Constants and data model -/

/-- The integrands `f1 .. f4` a `double (*)(double)` of the program can point to. -/
inductive Fn
  | f1
  | f2
  | f3
  | f4
  deriving DecidableEq

def MAX_QUEUE : Nat := 2

def MAX_WORKER : Nat := 10

def N_RANGES : Nat := 5

def N_FUNCTIONS : Nat := 4

def N_TASKS : Nat := N_RANGES * N_FUNCTIONS

def N_POINTS : Nat := 5000000

def EXIT_SUCCESS : Nat := 0

def EXIT_FAILURE : Nat := 1

/-- Signal number of `SIGUSR1` (Linux). -/
def SIGUSR1 : Nat := 10

/-- The `double` that `M_PI` denotes: `0x400921FB54442D18`, that is
`884279719003555 / 2^48`. -/
def M_PI : ℚ := ⟨884279719003555, 281474976710656, by decide, by norm_num⟩

/-- Operations on `double` results and times that `main` uses and does not define. -/
structure Ext (V : Type) where
  /-- The estimator `mc_integrate_1d(function, n_points, min, max)` of `monte_carlo.h`. -/
  mc_integrate_1d : Fn → Nat → ℚ → ℚ → V
  /-- Addition of doubles, the `+=` of line 252. -/
  add : V → V → V
  /-- The constant `0` the array `compute_times` is initialised with (line 97). -/
  zero : V
  /-- The cast `(int)x` of line 217. -/
  toInt : V → Int

/-- Request message, `struct message_request`. -/
structure REQ where
  id : Nat
  min : ℚ
  max : ℚ
  function : Fn
  deriving DecidableEq

/-- Response message, `struct message_response`. -/
structure RES (V : Type) where
  id : Nat
  result : V
  time : V
  deriving DecidableEq

/-- A task, `struct compute_task_struct`. -/
structure compute_task (V : Type) where
  id : Nat
  x_min : ℚ
  x_max : ℚ
  function : Fn
  result : V

/-- The store `a[i] = f a[i]` into a C array of `n` cells. -/
def arrModify {n : Nat} {α : Type} (a : Fin n → α) (i : Nat) (f : α → α) : Fin n → α :=
  fun k => if k.val = i then f (a k) else a k

/-- The handler of line 32. -/
def sigint_received (signum : Nat) (is_sigusr1 : Int) : Int :=
  if signum = SIGUSR1 then 1 else is_sigusr1

/-! ## Task table (lines 98-128) -/

def x_min : List ℚ := [0, 0, 0, 1, 0]

def x_max : List ℚ := [1, 2, 3, 10, M_PI]

def functions : List Fn := [Fn.f1, Fn.f2, Fn.f3, Fn.f4]

/-- Body of the inner loop, lines 122-126. -/
def fillTask {V : Type} (tasks : Fin N_TASKS → compute_task V) (i j : Nat) :
    Fin N_TASKS → compute_task V :=
  let task_id := i * N_FUNCTIONS + j
  arrModify tasks task_id
    (fun t => { t with id := task_id, x_min := x_min.getD i 0, x_max := x_max.getD i 0,
                       function := functions.getD j Fn.f1 })

/-- The loop over `j`, line 121. -/
def fillRow {V : Type} (tasks : Fin N_TASKS → compute_task V) (i : Nat) :
    Fin N_TASKS → compute_task V :=
  (List.range N_FUNCTIONS).foldl (fun ts j => fillTask ts i j) tasks

/-- The loop over `i`, line 120, run on the uninitialised array `init`. -/
def buildTasks {V : Type} (init : Fin N_TASKS → compute_task V) :
    Fin N_TASKS → compute_task V :=
  (List.range N_RANGES).foldl fillRow init

/-! ## Message queues

The queues are POSIX message queues opened with `O_NONBLOCK` and
`mq_maxmsg = MAX_QUEUE`; every message is sent with priority `0`. -/

/-- Behaviour of `mq_send` on a non-blocking queue: `-1` and no change when the queue holds
`MAX_QUEUE` messages, else `0` and the message is appended. -/
def mq_send {M : Type} (q : List M) (m : M) : Int × List M :=
  if q.length < MAX_QUEUE then (0, q ++ [m]) else (-1, q)

/-- Behaviour of `mq_receive` on a non-blocking queue: `none` stands for the return value `-1`
(nothing read), `some m` for a positive return value with the oldest message `m` in the
buffer. -/
def mq_receive {M : Type} (q : List M) : Option M × List M :=
  match q with
  | [] => (none, [])
  | m :: rest => (some m, rest)

/-! ## Worker (lines 199-239) -/

/-- Where a worker process is. -/
inductive WPhase (V : Type)
  /-- about to call `mq_receive` (line 200) -/
  | polling
  /-- in the retry loop of line 226, holding the assembled response -/
  | sending (msg_response_child : RES V)
  /-- the response was accepted; about to test `is_sigusr1` (line 233) -/
  | checking
  /-- after `exit(status)` and before the parent has waited for it -/
  | exited (status : Nat)
  /-- waited for by the parent -/
  | reaped
  deriving DecidableEq

/-- What the worker does that the outside sees. -/
inductive WEvent (V : Type)
  /-- a call `mc_integrate_1d(f, n, lo, hi)` -/
  | estimate (f : Fn) (n : Nat) (lo hi : ℚ)
  /-- a call of `mq_send` with this message, and whether it was accepted -/
  | offer (msg : RES V) (accepted : Bool)

/-- What the environment answers to the calls of one worker step: the outcome of
`mq_receive`, whether `create_timer` returned a timer, the value of `timer_check`, the
return code of `mq_send`, and the value of the flag when it is read. -/
structure WEnv (V : Type) where
  read : Option REQ
  timer_created : Bool
  time_taken : V
  rc : Int
  is_sigusr1 : Int

/-- Lines 200-225: one poll of the request queue, up to the assembled response. -/
def workerPoll {V : Type} (E : Ext V) (read : Option REQ) (timer_created : Bool)
    (time_taken : V) : WPhase V × List (WEvent V) :=
  match read with
  | none => (WPhase.polling, [])
  | some msg_request_child =>
    if msg_request_child.min < msg_request_child.max then
      if timer_created = false then (WPhase.exited EXIT_FAILURE, [])
      else
        let result := E.mc_integrate_1d msg_request_child.function N_POINTS
          msg_request_child.min msg_request_child.max
        let ev := WEvent.estimate msg_request_child.function N_POINTS
          msg_request_child.min msg_request_child.max
        if E.toInt time_taken = -1 then (WPhase.exited EXIT_FAILURE, [ev])
        else
          (WPhase.sending { id := msg_request_child.id, result := result, time := time_taken },
            [ev])
    else (WPhase.polling, [])

/-- Line 226: one attempt to send the response. -/
def workerSend {V : Type} (msg_response_child : RES V) (rc : Int) :
    WPhase V × List (WEvent V) :=
  if rc = -1 then
    (WPhase.sending msg_response_child, [WEvent.offer msg_response_child false])
  else (WPhase.checking, [WEvent.offer msg_response_child true])

/-- Lines 233-237: the test of the flag after an accepted send. -/
def workerCheck {V : Type} (is_sigusr1 : Int) : WPhase V × List (WEvent V) :=
  if is_sigusr1 = 1 then (WPhase.exited EXIT_SUCCESS, []) else (WPhase.polling, [])

/-- One step of the worker loop; a process that has exited makes no step. -/
def workerStep {V : Type} (E : Ext V) (ph : WPhase V) (env : WEnv V) :
    Option (WPhase V × List (WEvent V)) :=
  match ph with
  | WPhase.polling => some (workerPoll E env.read env.timer_created env.time_taken)
  | WPhase.sending msg => some (workerSend msg env.rc)
  | WPhase.checking => some (workerCheck env.is_sigusr1)
  | WPhase.exited _ => none
  | WPhase.reaped => none

/-- The worker loop run against a list of answers of the environment. -/
def workerRun {V : Type} (E : Ext V) : WPhase V → List (WEnv V) → WPhase V × List (WEvent V)
  | ph, [] => (ph, [])
  | ph, env :: rest =>
    match workerStep E ph env with
    | none => (ph, [])
    | some (ph1, evs) =>
      let r := workerRun E ph1 rest
      (r.1, evs ++ r.2)

/-! ## Coordinator, one round (lines 243-287) -/

/-- The variables of the parent that the loop of a round reads and writes. -/
structure Coord (V : Type) where
  tasks : Fin N_TASKS → compute_task V
  compute_times : Fin MAX_WORKER → V
  task_count : Nat
  response_count : Nat

/-- Lines 243-244. -/
def roundStart {V : Type} (tasks : Fin N_TASKS → compute_task V)
    (compute_times : Fin MAX_WORKER → V) : Coord V :=
  { tasks := tasks, compute_times := compute_times, task_count := 0, response_count := 0 }

/-- Lines 247-255: the outcome `read` of `mq_receive` on the response queue is handled.
`n_workers` is the counter of the loop of line 165 and so at least 1. -/
def coordRecv {V : Type} (E : Ext V) (n_workers : Nat) (c : Coord V)
    (read : Option (RES V)) : Coord V :=
  match read with
  | none => c
  | some msg_response =>
    { c with
      compute_times :=
        arrModify c.compute_times (n_workers - 1) (fun t => E.add t msg_response.time)
      tasks :=
        arrModify c.tasks msg_response.id (fun t => { t with result := msg_response.result })
      response_count := c.response_count + 1 }

/-- Lines 259-262: the request assembled from a task. -/
def mkRequest {V : Type} (t : compute_task V) : REQ :=
  { id := t.id, function := t.function, min := t.x_min, max := t.x_max }

/-- Lines 258-262: the request assembled for the next task, when there is one. -/
def nextRequest {V : Type} (c : Coord V) : Option REQ :=
  if h : c.task_count < N_TASKS then some (mkRequest (c.tasks ⟨c.task_count, h⟩)) else none

/-- Lines 258-271: with `rc` the return code of `mq_send`; the second component is the request
the queue accepted. -/
def coordSend {V : Type} (c : Coord V) (rc : Int) : Coord V × Option REQ :=
  match nextRequest c with
  | none => (c, none)
  | some msg_request =>
    if rc = -1 then (c, none)
    else ({ c with task_count := c.task_count + 1 }, some msg_request)

/-- The answers of the two queues in one iteration of the loop. -/
structure CoordIn (V : Type) where
  read : Option (RES V)
  rc : Int

/-- One iteration, lines 245-287; the last component is the test of line 275. -/
def coordIter {V : Type} (E : Ext V) (n_workers : Nat) (c : Coord V) (i : CoordIn V) :
    Coord V × Option REQ × Bool :=
  let c1 := coordRecv E n_workers c i.read
  let r := coordSend c1 i.rc
  (r.1, r.2, decide (r.1.response_count ≥ N_TASKS))

/-- What a run of the loop of one round did. -/
structure LoopTrace (V : Type) where
  /-- the variables at the end -/
  c : Coord V
  /-- the requests the request queue accepted, oldest first -/
  sent : List REQ
  /-- the responses received, oldest first -/
  received : List (RES V)
  /-- the number of iterations executed -/
  iterations : Nat
  /-- how often the block of lines 276-285 was executed -/
  shutdowns : Nat
  /-- whether the loop was left by the `break` of line 285 -/
  left : Bool

/-- The loop `while (1)` of line 245 run against a list of answers of the queues, one per
iteration. -/
def coordLoop {V : Type} (E : Ext V) (n_workers : Nat) :
    List (CoordIn V) → Coord V → LoopTrace V
  | [], c =>
    { c := c, sent := [], received := [], iterations := 0, shutdowns := 0, left := false }
  | i :: rest, c =>
    let r := coordIter E n_workers c i
    if r.2.2 then
      { c := r.1, sent := r.2.1.toList, received := i.read.toList, iterations := 1,
        shutdowns := 1, left := true }
    else
      let t := coordLoop E n_workers rest r.1
      { c := t.c, sent := r.2.1.toList ++ t.sent, received := i.read.toList ++ t.received,
        iterations := t.iterations + 1, shutdowns := t.shutdowns, left := t.left }

/-! ## The processes of a round together

The parent, its children and the two queues as one state; a step is one call of a queue
operation by one process together with the local computation up to its next call. -/

/-- A child process: where it is, and its copy of the flag `is_sigusr1`. -/
structure Proc (V : Type) where
  phase : WPhase V
  is_sigusr1 : Int
  deriving DecidableEq

/-- Where the parent is within the loop of line 245. -/
inductive CPc
  /-- about to call `mq_receive` (line 247) -/
  | recv
  /-- about to run lines 258-271 -/
  | send
  /-- about to run the test of line 275 -/
  | check
  /-- after the `break` of line 285 -/
  | done
  deriving DecidableEq

/-- The state of the whole program during a round.  The fields `dispatched` and `collected`
are history: the requests the request queue accepted from the parent and the responses the
parent received, oldest first, since the start of the round. -/
structure Sys (V : Type) where
  coord : Coord V
  pc : CPc
  n_workers : Nat
  /-- the array `pid`, as indices into `procs` -/
  pid : List Nat
  /-- the flag `is_sigusr1` of the parent -/
  is_sigusr1 : Int
  /-- every child forked so far -/
  procs : List (Proc V)
  reqQ : List REQ
  resQ : List (RES V)
  dispatched : List REQ
  collected : List (RES V)

/-- The program before the first round: no child, both queues just created. -/
def boot {V : Type} (tasks : Fin N_TASKS → compute_task V)
    (compute_times : Fin MAX_WORKER → V) : Sys V :=
  { coord := roundStart tasks compute_times, pc := CPc.done, n_workers := 0, pid := [],
    is_sigusr1 := 0, procs := [], reqQ := [], resQ := [], dispatched := [], collected := [] }

/-- Lines 172-244: the parent forks `n_workers` children, which open the queues and enter the
worker loop with a copy of the flag of the parent, and resets its two counters. -/
def startRound {V : Type} (s : Sys V) (n_workers : Nat) : Sys V :=
  { s with
    coord := roundStart s.coord.tasks s.coord.compute_times
    pc := CPc.recv
    n_workers := n_workers
    pid := (List.range n_workers).map (fun var => s.procs.length + var)
    procs := s.procs ++
      List.replicate n_workers { phase := WPhase.polling, is_sigusr1 := s.is_sigusr1 }
    dispatched := []
    collected := [] }

/-- A round with a pool of `k` workers that starts with no other child and empty queues. -/
def initRound {V : Type} (k : Nat) (tasks : Fin N_TASKS → compute_task V)
    (compute_times : Fin MAX_WORKER → V) : Sys V :=
  startRound (boot tasks compute_times) k

/-- Effect of `kill(p, SIGUSR1)`: the handler runs in child `p` if it has not exited.  The
signal is taken as delivered at once, the case most favourable to a prompt teardown. -/
def deliver {V : Type} (procs : List (Proc V)) (p : Nat) : List (Proc V) :=
  procs.modify
    (fun pr =>
      match pr.phase with
      | WPhase.exited _ => pr
      | WPhase.reaped => pr
      | _ => { pr with is_sigusr1 := sigint_received SIGUSR1 pr.is_sigusr1 })
    p

/-- The loop of lines 276-278. -/
def killAll {V : Type} (s : Sys V) : List (Proc V) :=
  (List.range s.n_workers).foldl
    (fun procs c =>
      match s.pid[c]? with
      | some p => deliver procs p
      | none => procs)
    s.procs

/-- Behaviour of `waitpid(-1, NULL, WNOHANG)`: the call returns at once; if some child has
exited, one of them is waited for. -/
def reapOne {V : Type} : List (Proc V) → List (Proc V)
  | [] => []
  | p :: ps =>
    match p.phase with
    | WPhase.exited _ => { p with phase := WPhase.reaped } :: ps
    | _ => p :: reapOne ps

/-- Lines 276-285: the signals, the one call of `waitpid`, the reset of the flag of the
parent and the `break`. -/
def shutdown {V : Type} (s : Sys V) : Sys V :=
  { s with procs := reapOne (killAll s), is_sigusr1 := 0, pc := CPc.done }

/-- The next step of the parent. -/
def coordStep {V : Type} (E : Ext V) (s : Sys V) : Sys V :=
  match s.pc with
  | CPc.recv =>
    let r := mq_receive s.resQ
    { s with
      coord := coordRecv E s.n_workers s.coord r.1
      resQ := r.2
      pc := CPc.send
      collected := s.collected ++ r.1.toList }
  | CPc.send =>
    match nextRequest s.coord with
    | none => { s with pc := CPc.check }
    | some msg_request =>
      let r := mq_send s.reqQ msg_request
      let r2 := coordSend s.coord r.1
      { s with
        coord := r2.1
        reqQ := r.2
        pc := CPc.check
        dispatched := s.dispatched ++ r2.2.toList }
  | CPc.check =>
    if s.coord.response_count ≥ N_TASKS then shutdown s else { s with pc := CPc.recv }
  | CPc.done => s

/-- The next step of child `i`; `timer_created` and `time_taken` are what `create_timer` and
`timer_check` answer if the step calls them. -/
def workerAct {V : Type} (E : Ext V) (s : Sys V) (i : Nat) (timer_created : Bool)
    (time_taken : V) : Sys V :=
  match s.procs[i]? with
  | none => s
  | some p =>
    match p.phase with
    | WPhase.polling =>
      let r := mq_receive s.reqQ
      { s with
        reqQ := r.2
        procs := s.procs.set i
          { p with phase := (workerPoll E r.1 timer_created time_taken).1 } }
    | WPhase.sending msg =>
      let r := mq_send s.resQ msg
      { s with
        resQ := r.2
        procs := s.procs.set i { p with phase := (workerSend msg r.1).1 } }
    | WPhase.checking =>
      { s with procs := s.procs.set i { p with phase := (workerCheck p.is_sigusr1).1 } }
    | WPhase.exited _ => s
    | WPhase.reaped => s

/-- Who makes the next step. -/
inductive Action (V : Type)
  | coord
  | worker (i : Nat) (timer_created : Bool) (time_taken : V)

def step {V : Type} (E : Ext V) (s : Sys V) : Action V → Sys V
  | Action.coord => coordStep E s
  | Action.worker i timer_created time_taken => workerAct E s i timer_created time_taken

/-- The state after the steps of the interleaving `sched`. -/
def run {V : Type} (E : Ext V) (s : Sys V) (sched : List (Action V)) : Sys V :=
  sched.foldl (step E) s

/-- The task ids a child holds between receiving a request and the acceptance of its
response. -/
def inflight {V : Type} (p : Proc V) : List Nat :=
  match p.phase with
  | WPhase.sending msg => [msg.id]
  | _ => []

/-- The task ids held by the children of a list. -/
def heldByProcs {V : Type} : List (Proc V) → List Nat
  | [] => []
  | p :: ps => inflight p ++ heldByProcs ps

/-- What holds of every state of a round on the table built from `init`: the table still
describes the same tasks; the requests dispatched are those of tasks `0..task_count-1`;
`response_count` counts the responses collected; every task id that sits in a queue, is held
by a child or was collected comes from a request dispatched and not yet accounted for
otherwise; and the table holds the result of every response collected. -/
structure RoundInv {V : Type} (init : Fin N_TASKS → compute_task V) (s : Sys V) : Prop where
  catalog : ∀ k : Fin N_TASKS, mkRequest (s.coord.tasks k) = mkRequest (buildTasks init k)
  tc_le : s.coord.task_count ≤ N_TASKS
  dispatched_ids : s.dispatched.map REQ.id = List.range s.coord.task_count
  collected_len : s.collected.length = s.coord.response_count
  held : ∀ x : Nat,
    (s.collected.map RES.id).count x + (s.resQ.map RES.id).count x +
      (heldByProcs s.procs).count x + (s.reqQ.map REQ.id).count x ≤
        (List.range s.coord.task_count).count x
  results : ∀ r ∈ s.collected, ∀ h : r.id < N_TASKS,
    (s.coord.tasks ⟨r.id, h⟩).result = r.result

/-! ## Concrete instances used to exercise the definitions -/

/-- Doubles as integers: the estimator returns the id of the integrand scaled by the number
of points, times add up, the cast is the identity. -/
def extInt : Ext Int where
  mc_integrate_1d := fun f n _ _ =>
    match f with
    | Fn.f1 => 1 * n
    | Fn.f2 => 2 * n
    | Fn.f3 => 3 * n
    | Fn.f4 => 4 * n
  add := fun a b => a + b
  zero := 0
  toInt := fun a => a

/-- A task table with arbitrary contents, as before line 120. -/
def junkTasks : Fin N_TASKS → compute_task Int :=
  fun _ => { id := 77, x_min := 5, x_max := 4, function := Fn.f3, result := -1 }

/-- One period of a serial interleaving: a full iteration of the parent, then a poll, a send
and a flag test of child `0`, each with a timer reading of `7`. -/
def serialPeriod : List (Action Int) :=
  [Action.coord, Action.coord, Action.coord,
   Action.worker 0 true 7, Action.worker 0 true 7, Action.worker 0 true 7]

/-- The interleaving of a round with one worker in which the parent and the worker alternate:
`N_TASKS` periods and a last iteration of the parent. -/
def serialSchedule : List (Action Int) :=
  (List.replicate N_TASKS serialPeriod).flatten ++ [Action.coord, Action.coord, Action.coord]

/-- A well-formed request, that of task 14 of the table. -/
def cycleReq : REQ := { id := 14, min := 1, max := 10, function := Fn.f3 }

/-- Answers of the environment to one worker step, with the flag not set. -/
def cycleEnv (read : Option REQ) (timer_created : Bool) (time_taken rc : Int) : WEnv Int :=
  { read := read, timer_created := timer_created, time_taken := time_taken, rc := rc,
    is_sigusr1 := 0 }

/-- A request with `min >= max`. -/
def badReq : REQ := { id := 3, min := 5, max := 4, function := Fn.f2 }

/-- The parent at the start of a round, with the built table and no time recorded. -/
def sampleCoord : Coord Int := roundStart (buildTasks junkTasks) (fun _ => 0)

/-- A response for task 14. -/
def sampleRes : RES Int := { id := 14, result := 27, time := 7 }

/-- Answers of the queues in which every iteration receives `sampleRes` and has its request
accepted. -/
def busyInputs : List (CoordIn Int) :=
  List.replicate N_TASKS { read := some sampleRes, rc := 0 }

/-- Answers of the queues in which the request queue is full in the first and third
iteration and nothing is received. -/
def fullInputs : List (CoordIn Int) :=
  [{ read := none, rc := -1 }, { read := none, rc := 0 }, { read := none, rc := -1 },
   { read := none, rc := 0 }]

/-- The state in which the round with one worker ends under `serialSchedule`. -/
def afterRoundOne : Sys Int :=
  run extInt (initRound 1 (buildTasks junkTasks) (fun _ => 0)) serialSchedule

/-- The start of the round with two workers: an iteration of the parent up to its send, then
a poll by child `0`, the worker forked in the round with one worker. -/
def roundTwoStart : List (Action Int) :=
  [Action.coord, Action.coord, Action.worker 0 true 7]

/-! ## Task table -/

theorem fillRow_unfold {V : Type} (ts : Fin N_TASKS → compute_task V) (i : Nat) :
    fillRow ts i = fillTask (fillTask (fillTask (fillTask ts i 0) i 1) i 2) i 3 := by
  have h : List.range N_FUNCTIONS = [0, 1, 2, 3] := by decide
  simp [fillRow, h]

theorem buildTasks_unfold {V : Type} (init : Fin N_TASKS → compute_task V) :
    buildTasks init = fillRow (fillRow (fillRow (fillRow (fillRow init 0) 1) 2) 3) 4 := by
  have h : List.range N_RANGES = [0, 1, 2, 3, 4] := by decide
  simp [buildTasks, h]

theorem buildTasks_entry {V : Type} (init : Fin N_TASKS → compute_task V) (i j : Nat)
    (hi : i < 5) (hj : j < 4) (h : i * 4 + j < N_TASKS) :
    buildTasks init ⟨i * 4 + j, h⟩ =
      { id := i * 4 + j, x_min := x_min.getD i 0, x_max := x_max.getD i 0,
        function := functions.getD j Fn.f1, result := (init ⟨i * 4 + j, h⟩).result } := by
  rw [buildTasks_unfold]
  simp only [fillRow_unfold]
  interval_cases i <;> interval_cases j <;>
    simp [fillTask, arrModify, N_FUNCTIONS]

theorem index_split (k : Nat) (hk : k < 20) : k / 4 < 5 ∧ k % 4 < 4 ∧ k / 4 * 4 + k % 4 = k := by
  omega

theorem buildTasks_id {V : Type} (init : Fin N_TASKS → compute_task V) (k : Fin N_TASKS) :
    (buildTasks init k).id = k.val := by
  obtain ⟨k, hk⟩ := k
  have hk20 : k < 20 := hk
  obtain ⟨h1, h2, h3⟩ := index_split k hk20
  have h : k / 4 * 4 + k % 4 < N_TASKS := by rw [h3]; exact hk
  have e := buildTasks_entry init (k / 4) (k % 4) h1 h2 h
  have e2 : (⟨k, hk⟩ : Fin N_TASKS) = ⟨k / 4 * 4 + k % 4, h⟩ := by
    apply Fin.ext; exact h3.symm
  rw [e2, e]

theorem range_lt (i : Nat) (hi : i < 5) : x_min.getD i 0 < x_max.getD i 0 := by
  interval_cases i
  · decide
  · decide
  · decide
  · decide
  · decide

theorem buildTasks_wf {V : Type} (init : Fin N_TASKS → compute_task V) (k : Fin N_TASKS) :
    (buildTasks init k).x_min < (buildTasks init k).x_max := by
  obtain ⟨k, hk⟩ := k
  have hk20 : k < 20 := hk
  obtain ⟨h1, h2, h3⟩ := index_split k hk20
  have h : k / 4 * 4 + k % 4 < N_TASKS := by rw [h3]; exact hk
  have e := buildTasks_entry init (k / 4) (k % 4) h1 h2 h
  have e2 : (⟨k, hk⟩ : Fin N_TASKS) = ⟨k / 4 * 4 + k % 4, h⟩ := by
    apply Fin.ext; exact h3.symm
  rw [e2, e]
  exact range_lt (k / 4) h1

/-- C10: the table that lines 120-128 build has `N_TASKS = 20` entries and is the cross
product of the 5 ranges and the 4 functions: entry `i*4+j` has id `i*4+j`, the bounds of
range `i` and function `j`; `(i, j) ↦ i*4+j` is a bijection onto `0..19`, so every id occurs
once and ids are dense; and every entry has `x_min < x_max`, the ranges being
`[0,1], [0,2], [0,3], [1,10], [0,M_PI]`. -/
theorem task_catalog_construction {V : Type} (init : Fin N_TASKS → compute_task V) :
    N_TASKS = 20 ∧
    List.zip x_min x_max = [(0, 1), (0, 2), (0, 3), (1, 10), (0, M_PI)] ∧
    functions = [Fn.f1, Fn.f2, Fn.f3, Fn.f4] ∧
    (∀ i j : Nat, i < 5 → j < 4 → ∃ h : i * 4 + j < N_TASKS,
      (buildTasks init ⟨i * 4 + j, h⟩).id = i * 4 + j ∧
      x_min[i]? = some (buildTasks init ⟨i * 4 + j, h⟩).x_min ∧
      x_max[i]? = some (buildTasks init ⟨i * 4 + j, h⟩).x_max ∧
      functions[j]? = some (buildTasks init ⟨i * 4 + j, h⟩).function) ∧
    (∀ k : Nat, k < 20 → ∃! p : Nat × Nat, p.1 < 5 ∧ p.2 < 4 ∧ p.1 * 4 + p.2 = k) ∧
    (∀ k : Fin N_TASKS, (buildTasks init k).id = k.val) ∧
    (∀ k : Fin N_TASKS, (buildTasks init k).x_min < (buildTasks init k).x_max) := by
  refine ⟨rfl, rfl, rfl, ?_, ?_, buildTasks_id init, buildTasks_wf init⟩
  · intro i j hi hj
    have h : i * 4 + j < N_TASKS := by
      show i * 4 + j < 20
      omega
    refine ⟨h, ?_⟩
    rw [buildTasks_entry init i j hi hj h]
    interval_cases i <;> interval_cases j <;> simp [x_min, x_max, functions]
  · intro k hk
    refine ⟨(k / 4, k % 4), ?_, ?_⟩
    · simp only
      omega
    · rintro ⟨a, b⟩ ⟨ha, hb, hab⟩
      simp only at ha hb hab
      have h1 : a = k / 4 := by omega
      have h2 : b = k % 4 := by omega
      rw [h1, h2]

/-- Instance of C10 at range 3 (`[1,10]`) and function 2 (`f3`): entry 14. -/
theorem task_catalog_construction_witness :
    ∃ h : 3 * 4 + 2 < N_TASKS,
      (buildTasks junkTasks ⟨3 * 4 + 2, h⟩).id = 14 ∧
      (buildTasks junkTasks ⟨3 * 4 + 2, h⟩).x_min = 1 ∧
      (buildTasks junkTasks ⟨3 * 4 + 2, h⟩).x_max = 10 ∧
      (buildTasks junkTasks ⟨3 * 4 + 2, h⟩).function = Fn.f3 := by
  obtain ⟨h, h1, h2, h3, h4⟩ :=
    (task_catalog_construction junkTasks).2.2.2.1 3 2 (by decide) (by decide)
  refine ⟨h, h1, ?_, ?_, ?_⟩
  · have e : x_min[3]? = some (1 : ℚ) := rfl
    rw [e] at h2
    exact (Option.some.inj h2).symm
  · have e : x_max[3]? = some (10 : ℚ) := rfl
    rw [e] at h3
    exact (Option.some.inj h3).symm
  · have e : functions[2]? = some Fn.f3 := rfl
    rw [e] at h4
    exact (Option.some.inj h4).symm

/-! ## Worker -/

/-- The response the worker assembles for `req` when the timer read `time_taken`. -/
theorem workerPoll_ok {V : Type} (E : Ext V) (req : REQ) (time_taken : V)
    (hwf : req.min < req.max) (hread : E.toInt time_taken ≠ -1) :
    workerPoll E (some req) true time_taken =
      (WPhase.sending
        { id := req.id, result := E.mc_integrate_1d req.function N_POINTS req.min req.max,
          time := time_taken },
        [WEvent.estimate req.function N_POINTS req.min req.max]) := by
  simp [workerPoll, hwf, hread]

theorem workerRun_rejected {V : Type} (E : Ext V) (msg : RES V) (rej rest : List (WEnv V))
    (hrej : ∀ e ∈ rej, e.rc = -1) :
    workerRun E (WPhase.sending msg) (rej ++ rest) =
      ((workerRun E (WPhase.sending msg) rest).1,
        rej.map (fun _ => WEvent.offer msg false) ++
          (workerRun E (WPhase.sending msg) rest).2) := by
  induction rej with
  | nil => simp
  | cons e rej ih =>
    have he : e.rc = -1 := hrej e (List.mem_cons_self _ _)
    have ih2 := ih (fun x hx => hrej x (List.mem_cons_of_mem _ hx))
    simp [workerRun, workerStep, workerSend, he, ih2]

/-- C4, as amended: when a worker receives a request with `min < max`, the timer is created
and its reading is not the error value, and the response send is rejected `rej.length` times
and then accepted, the worker calls the estimator once, on the function, the number of points
and the bounds of the request, offers the same response on every attempt, and exactly one
offer, the last one, is accepted; that response carries the id of the request, the value of
the estimator and the timer reading; the worker is then at the test of the flag. -/
theorem worker_task_cycle {V : Type} (E : Ext V) (req : REQ) (env0 acc : WEnv V)
    (rej : List (WEnv V))
    (hreq : env0.read = some req) (hwf : req.min < req.max)
    (hcreated : env0.timer_created = true) (hread : E.toInt env0.time_taken ≠ -1)
    (hrej : ∀ e ∈ rej, e.rc = -1) (hacc : acc.rc ≠ -1) :
    workerRun E WPhase.polling (env0 :: (rej ++ [acc])) =
      (WPhase.checking,
        WEvent.estimate req.function N_POINTS req.min req.max ::
          (rej.map (fun _ => WEvent.offer
              { id := req.id,
                result := E.mc_integrate_1d req.function N_POINTS req.min req.max,
                time := env0.time_taken } false) ++
            [WEvent.offer
              { id := req.id,
                result := E.mc_integrate_1d req.function N_POINTS req.min req.max,
                time := env0.time_taken } true])) := by
  have h0 := workerPoll_ok E req env0.time_taken hwf hread
  rw [workerRun]
  simp only [workerStep, hreq, hcreated, h0]
  rw [workerRun_rejected E _ rej [acc] hrej]
  simp [workerRun, workerStep, workerSend, hacc]

theorem worker_task_cycle_witness :
    workerRun extInt WPhase.polling
      (cycleEnv (some cycleReq) true 7 0 ::
        ([cycleEnv none true 0 (-1), cycleEnv none true 0 (-1)] ++ [cycleEnv none true 0 0])) =
      (WPhase.checking,
        WEvent.estimate Fn.f3 N_POINTS 1 10 ::
          ([cycleEnv none true 0 (-1), cycleEnv none true 0 (-1)].map
              (fun _ => WEvent.offer ({ id := 14, result := 15000000, time := 7 } : RES Int) false) ++
            [WEvent.offer ({ id := 14, result := 15000000, time := 7 } : RES Int) true])) :=
  worker_task_cycle extInt cycleReq (cycleEnv (some cycleReq) true 7 0) (cycleEnv none true 0 0)
    [cycleEnv none true 0 (-1), cycleEnv none true 0 (-1)]
    rfl (by decide) rfl (by decide) (by decide) (by decide)

/-- C4 fails as stated: a worker that receives the well-formed request `cycleReq` and cannot
create its timer exits with `EXIT_FAILURE`; it calls neither the estimator nor `mq_send`, so
no response is accepted although the queue would have accepted one after two rejections. -/
theorem worker_task_cycle_counterexample :
    cycleReq.min < cycleReq.max ∧
    workerRun extInt WPhase.polling
      [cycleEnv (some cycleReq) false 7 0, cycleEnv none true 0 (-1),
        cycleEnv none true 0 (-1), cycleEnv none true 0 0] =
      (WPhase.exited EXIT_FAILURE, []) := by
  refine ⟨by decide, ?_⟩
  simp [workerRun, workerStep, workerPoll, cycleEnv, cycleReq]

/-- C5, as amended: a step of the worker loop ends in `exit(EXIT_SUCCESS)` if and only if the
worker is at the test of the flag, which it reaches exactly by an accepted send of its
response, and the flag is `1` there.  From the receipt of a well-formed request to the
acceptance of its response the worker never exits with status 0 and no step depends on the
flag: a rejected send keeps it in the retry loop, and it exits there only with
`EXIT_FAILURE`, when the timer cannot be created or read.  A poll that finds the queue empty
or receives a request with `min >= max` leaves it polling, whatever the flag. -/
theorem worker_exit_condition {V : Type} (E : Ext V) (ph : WPhase V) (env : WEnv V) :
    ((∃ evs, workerStep E ph env = some (WPhase.exited EXIT_SUCCESS, evs)) ↔
      (ph = WPhase.checking ∧ env.is_sigusr1 = 1)) ∧
    ((∃ evs, workerStep E ph env = some (WPhase.checking, evs)) ↔
      (∃ msg, ph = WPhase.sending msg ∧ env.rc ≠ -1)) ∧
    (∀ msg, ph = WPhase.sending msg →
      ∀ st evs, workerStep E ph env ≠ some (WPhase.exited st, evs)) ∧
    (∀ req, ph = WPhase.polling → env.read = some req → req.min < req.max →
      ∀ st evs, workerStep E ph env = some (WPhase.exited st, evs) →
        st = EXIT_FAILURE ∧ (env.timer_created = false ∨ E.toInt env.time_taken = -1)) ∧
    (ph ≠ WPhase.checking →
      ∀ flag, workerStep E ph { env with is_sigusr1 := flag } = workerStep E ph env) ∧
    (ph = WPhase.polling →
      (env.read = none ∨ ∃ req, env.read = some req ∧ req.max ≤ req.min) →
      ∀ flag, workerStep E ph { env with is_sigusr1 := flag } = some (WPhase.polling, [])) := by
  refine ⟨?_, ?_, ?_, ?_, ?_, ?_⟩
  · constructor
    · rintro ⟨evs, h⟩
      cases ph with
      | polling =>
        simp only [workerStep, workerPoll] at h
        split at h
        · simp at h
        · split at h
          · split at h
            · simp [EXIT_SUCCESS, EXIT_FAILURE] at h
            · split at h
              · simp [EXIT_SUCCESS, EXIT_FAILURE] at h
              · simp at h
          · simp at h
      | sending msg =>
        simp only [workerStep, workerSend] at h
        split at h <;> simp at h
      | checking =>
        simp only [workerStep, workerCheck] at h
        split at h
        · exact ⟨rfl, by assumption⟩
        · simp at h
      | exited st => simp [workerStep] at h
      | reaped => simp [workerStep] at h
    · rintro ⟨rfl, hf⟩
      exact ⟨[], by simp [workerStep, workerCheck, hf]⟩
  · constructor
    · rintro ⟨evs, h⟩
      cases ph with
      | polling =>
        simp only [workerStep, workerPoll] at h
        split at h
        · simp at h
        · split at h
          · split at h
            · simp at h
            · split at h <;> simp at h
          · simp at h
      | sending msg =>
        refine ⟨msg, rfl, ?_⟩
        intro hrc
        simp [workerStep, workerSend, hrc] at h
      | checking =>
        simp only [workerStep, workerCheck] at h
        split at h <;> simp at h
      | exited st => simp [workerStep] at h
      | reaped => simp [workerStep] at h
    · rintro ⟨msg, rfl, hrc⟩
      exact ⟨[WEvent.offer msg true], by simp [workerStep, workerSend, hrc]⟩
  · rintro msg rfl st evs h
    simp only [workerStep, workerSend] at h
    split at h <;> simp at h
  · rintro req rfl hreq hwf st evs h
    simp only [workerStep, workerPoll, hreq, hwf, if_true] at h
    split at h
    · simp only [Option.some.injEq, Prod.mk.injEq, WPhase.exited.injEq] at h
      exact ⟨h.1.symm, Or.inl (by assumption)⟩
    · split at h
      · simp only [Option.some.injEq, Prod.mk.injEq, WPhase.exited.injEq] at h
        exact ⟨h.1.symm, Or.inr (by assumption)⟩
      · simp at h
  · intro hph flag
    cases ph with
    | checking => exact absurd rfl hph
    | polling => rfl
    | sending msg => rfl
    | exited st => rfl
    | reaped => rfl
  · rintro rfl hread flag
    rcases hread with hnone | ⟨req, hreq, hbad⟩
    · simp [workerStep, workerPoll, hnone]
    · simp [workerStep, workerPoll, hreq, not_lt.mpr hbad]

/-- Instance of C5: a worker whose response was just accepted and whose flag is set exits
with status 0. -/
theorem worker_exit_condition_witness :
    ∃ evs, workerStep extInt WPhase.checking
      { read := none, timer_created := true, time_taken := 0, rc := 0, is_sigusr1 := 1 } =
        some (WPhase.exited EXIT_SUCCESS, evs) :=
  (worker_exit_condition extInt WPhase.checking
    { read := none, timer_created := true, time_taken := 0, rc := 0, is_sigusr1 := 1 }).1.mpr
    ⟨rfl, rfl⟩

/-- C5 fails as stated: a worker that has received the well-formed request `cycleReq` and
whose timer reads the error value `-1` terminates, with `EXIT_FAILURE`, after the estimate and
before any send of the response. -/
theorem worker_exit_condition_counterexample :
    cycleReq.min < cycleReq.max ∧
    workerStep extInt WPhase.polling (cycleEnv (some cycleReq) true (-1) 0) =
      some (WPhase.exited EXIT_FAILURE, [WEvent.estimate Fn.f3 N_POINTS 1 10]) := by
  refine ⟨by decide, ?_⟩
  simp [workerStep, workerPoll, cycleEnv, cycleReq, extInt]

/-- C9: a worker that receives a request with `min >= max` calls neither the estimator nor
`mq_send` and does not exit: the step has no event and leaves the worker polling, exactly as
a poll that found the request queue empty, and the worker goes on as a polling worker. -/
theorem malformed_request_noop {V : Type} (E : Ext V) (req : REQ) (env : WEnv V)
    (hreq : env.read = some req) (hbad : req.max ≤ req.min) :
    workerStep E WPhase.polling env = some (WPhase.polling, []) ∧
    workerStep E WPhase.polling env = workerStep E WPhase.polling { env with read := none } ∧
    (∀ rest, workerRun E WPhase.polling (env :: rest) = workerRun E WPhase.polling rest) := by
  have h1 : workerStep E WPhase.polling env = some (WPhase.polling, []) := by
    simp [workerStep, workerPoll, hreq, not_lt.mpr hbad]
  refine ⟨h1, ?_, ?_⟩
  · rw [h1]
    simp [workerStep, workerPoll]
  · intro rest
    rw [workerRun, h1]
    simp

theorem malformed_request_noop_witness :
    workerStep extInt WPhase.polling (cycleEnv (some badReq) true 7 0) =
      some (WPhase.polling, []) :=
  (malformed_request_noop extInt badReq (cycleEnv (some badReq) true 7 0) rfl (by decide)).1

/-! ## Coordinator: one receive -/

/-- C8: for a response whose id is below `N_TASKS`, the receive step of the parent stores the
result of the response in the task of that id and changes nothing else in the table: every
other entry is the same, and no entry changes its id, bounds or function; `task_count` is
unchanged; and a receive that finds the queue empty changes nothing at all. -/
theorem recv_result_frame {V : Type} (E : Ext V) (n_workers : Nat) (c : Coord V)
    (msg : RES V) (h : msg.id < N_TASKS) :
    (coordRecv E n_workers c (some msg)).tasks ⟨msg.id, h⟩ =
      { c.tasks ⟨msg.id, h⟩ with result := msg.result } ∧
    (∀ k : Fin N_TASKS, k.val ≠ msg.id →
      (coordRecv E n_workers c (some msg)).tasks k = c.tasks k) ∧
    (∀ k : Fin N_TASKS,
      ((coordRecv E n_workers c (some msg)).tasks k).id = (c.tasks k).id ∧
      ((coordRecv E n_workers c (some msg)).tasks k).x_min = (c.tasks k).x_min ∧
      ((coordRecv E n_workers c (some msg)).tasks k).x_max = (c.tasks k).x_max ∧
      ((coordRecv E n_workers c (some msg)).tasks k).function = (c.tasks k).function) ∧
    (coordRecv E n_workers c (some msg)).task_count = c.task_count ∧
    coordRecv E n_workers c none = c := by
  refine ⟨?_, ?_, ?_, rfl, rfl⟩
  · simp [coordRecv, arrModify]
  · intro k hk
    simp [coordRecv, arrModify, hk]
  · intro k
    simp only [coordRecv, arrModify]
    split <;> simp

theorem recv_result_frame_witness :
    ∃ h : sampleRes.id < N_TASKS,
      ((coordRecv extInt 3 sampleCoord (some sampleRes)).tasks ⟨sampleRes.id, h⟩).result = 27 :=
  ⟨by decide,
    congrArg compute_task.result (recv_result_frame extInt 3 sampleCoord sampleRes (by decide)).1⟩

/-! ## Coordinator: the loop of a round -/

theorem coordRecv_mkRequest {V : Type} (E : Ext V) (n : Nat) (c : Coord V)
    (r : Option (RES V)) (k : Fin N_TASKS) :
    mkRequest ((coordRecv E n c r).tasks k) = mkRequest (c.tasks k) := by
  cases r with
  | none => rfl
  | some msg =>
    simp only [coordRecv, arrModify]
    split <;> rfl

theorem coordRecv_task_count {V : Type} (E : Ext V) (n : Nat) (c : Coord V)
    (r : Option (RES V)) : (coordRecv E n c r).task_count = c.task_count := by
  cases r <;> rfl

theorem coordRecv_response_count {V : Type} (E : Ext V) (n : Nat) (c : Coord V)
    (r : Option (RES V)) :
    (coordRecv E n c r).response_count = c.response_count + r.toList.length := by
  cases r <;> rfl

theorem coordSend_cases {V : Type} (c : Coord V) (rc : Int) :
    coordSend c rc = (c, none) ∨
    ∃ h : c.task_count < N_TASKS, rc ≠ -1 ∧
      coordSend c rc =
        ({ c with task_count := c.task_count + 1 }, some (mkRequest (c.tasks ⟨c.task_count, h⟩))) := by
  unfold coordSend nextRequest
  by_cases h : c.task_count < N_TASKS
  · by_cases hrc : rc = -1
    · left
      simp [h, hrc]
    · right
      exact ⟨h, hrc, by simp [h, hrc]⟩
  · left
    simp [h]

theorem coordSend_response_count {V : Type} (c : Coord V) (rc : Int) :
    (coordSend c rc).1.response_count = c.response_count := by
  rcases coordSend_cases c rc with h | ⟨_, _, h⟩ <;> rw [h]

theorem coordSend_tasks {V : Type} (c : Coord V) (rc : Int) :
    (coordSend c rc).1.tasks = c.tasks := by
  rcases coordSend_cases c rc with h | ⟨_, _, h⟩ <;> rw [h]

theorem coordSend_compute_times {V : Type} (c : Coord V) (rc : Int) :
    (coordSend c rc).1.compute_times = c.compute_times := by
  rcases coordSend_cases c rc with h | ⟨_, _, h⟩ <;> rw [h]

theorem coordSend_task_count_le {V : Type} (c : Coord V) (rc : Int)
    (h : c.task_count ≤ N_TASKS) : (coordSend c rc).1.task_count ≤ N_TASKS := by
  rcases coordSend_cases c rc with h1 | ⟨h2, _, h1⟩ <;> rw [h1]
  · exact h
  · exact h2

theorem coordLoop_nil {V : Type} (E : Ext V) (n : Nat) (c : Coord V) :
    coordLoop E n [] c =
      { c := c, sent := [], received := [], iterations := 0, shutdowns := 0, left := false } :=
  rfl

theorem coordLoop_stop {V : Type} (E : Ext V) (n : Nat) (c : Coord V) (i : CoordIn V)
    (rest : List (CoordIn V)) (h : (coordIter E n c i).2.2 = true) :
    coordLoop E n (i :: rest) c =
      { c := (coordIter E n c i).1, sent := (coordIter E n c i).2.1.toList,
        received := i.read.toList, iterations := 1, shutdowns := 1, left := true } := by
  rw [coordLoop]
  simp [h]

theorem coordLoop_go {V : Type} (E : Ext V) (n : Nat) (c : Coord V) (i : CoordIn V)
    (rest : List (CoordIn V)) (h : (coordIter E n c i).2.2 = false) :
    coordLoop E n (i :: rest) c =
      { c := (coordLoop E n rest (coordIter E n c i).1).c,
        sent := (coordIter E n c i).2.1.toList ++ (coordLoop E n rest (coordIter E n c i).1).sent,
        received := i.read.toList ++ (coordLoop E n rest (coordIter E n c i).1).received,
        iterations := (coordLoop E n rest (coordIter E n c i).1).iterations + 1,
        shutdowns := (coordLoop E n rest (coordIter E n c i).1).shutdowns,
        left := (coordLoop E n rest (coordIter E n c i).1).left } := by
  rw [coordLoop]
  simp [h]

theorem coordIter_response_count {V : Type} (E : Ext V) (n : Nat) (c : Coord V)
    (i : CoordIn V) :
    (coordIter E n c i).1.response_count = c.response_count + i.read.toList.length := by
  simp [coordIter, coordSend_response_count, coordRecv_response_count]

theorem coordIter_flag {V : Type} (E : Ext V) (n : Nat) (c : Coord V) (i : CoordIn V) :
    (coordIter E n c i).2.2 = decide ((coordIter E n c i).1.response_count ≥ N_TASKS) := rfl

theorem toList_length_le {α : Type} (o : Option α) : o.toList.length ≤ 1 := by
  cases o <;> simp

/-- Counters and control of the loop, from any state in which the loop is running. -/
theorem coordLoop_counts {V : Type} (E : Ext V) (n : Nat) (inputs : List (CoordIn V)) :
    ∀ c : Coord V, c.response_count < N_TASKS → c.task_count ≤ N_TASKS →
      (coordLoop E n inputs c).c.response_count ≤ N_TASKS ∧
      (coordLoop E n inputs c).c.task_count ≤ N_TASKS ∧
      ((coordLoop E n inputs c).left = false ↔
        (coordLoop E n inputs c).c.response_count < N_TASKS) ∧
      ((coordLoop E n inputs c).left = true ↔
        (coordLoop E n inputs c).c.response_count = N_TASKS) ∧
      (coordLoop E n inputs c).shutdowns = (if (coordLoop E n inputs c).left then 1 else 0) ∧
      ((coordLoop E n inputs c).left = false →
        (coordLoop E n inputs c).iterations = inputs.length) ∧
      (coordLoop E n inputs c).iterations ≤ inputs.length := by
  induction inputs with
  | nil =>
    intro c hr ht
    simp only [coordLoop_nil]
    refine ⟨le_of_lt hr, ht, ?_, ?_, rfl, fun _ => rfl, le_refl _⟩
    · simp [hr]
    · simp [ne_of_lt hr]
  | cons i rest ih =>
    intro c hr ht
    have hrc := coordIter_response_count E n c i
    have hle := toList_length_le i.read
    have htc : (coordIter E n c i).1.task_count ≤ N_TASKS := by
      simp only [coordIter]
      apply coordSend_task_count_le
      rw [coordRecv_task_count]
      exact ht
    by_cases hf : (coordIter E n c i).2.2 = true
    · rw [coordLoop_stop E n c i rest hf]
      have hge : (coordIter E n c i).1.response_count ≥ N_TASKS := by
        rw [coordIter_flag] at hf
        exact of_decide_eq_true hf
      have heq : (coordIter E n c i).1.response_count = N_TASKS := by omega
      simp only [heq]
      refine ⟨le_refl _, htc, ?_, ?_, rfl, ?_, ?_⟩
      · simp
      · simp
      · intro h
        cases h
      · simp
    · have hf2 : (coordIter E n c i).2.2 = false := by
        cases h : (coordIter E n c i).2.2
        · rfl
        · exact absurd h hf
      rw [coordLoop_go E n c i rest hf2]
      have hlt : (coordIter E n c i).1.response_count < N_TASKS := by
        rw [coordIter_flag] at hf2
        have := of_decide_eq_false hf2
        omega
      obtain ⟨h1, h2, h3, h4, h5, h6, h7⟩ := ih (coordIter E n c i).1 hlt htc
      refine ⟨h1, h2, h3, h4, h5, ?_, ?_⟩
      · intro h
        simp only [List.length_cons]
        rw [h6 h]
      · simp only [List.length_cons]
        omega

/-- Once the loop is left, further answers of the queues are not consumed. -/
theorem coordLoop_left_append {V : Type} (E : Ext V) (n : Nat) (inputs more : List (CoordIn V)) :
    ∀ c : Coord V, (coordLoop E n inputs c).left = true →
      coordLoop E n (inputs ++ more) c = coordLoop E n inputs c := by
  induction inputs with
  | nil =>
    intro c h
    simp [coordLoop_nil] at h
  | cons i rest ih =>
    intro c h
    by_cases hf : (coordIter E n c i).2.2 = true
    · rw [List.cons_append, coordLoop_stop E n c i _ hf, coordLoop_stop E n c i _ hf]
    · have hf2 : (coordIter E n c i).2.2 = false := by
        cases h : (coordIter E n c i).2.2
        · rfl
        · exact absurd h hf
      rw [coordLoop_go E n c i rest hf2] at h
      rw [List.cons_append, coordLoop_go E n c i _ hf2, coordLoop_go E n c i _ hf2,
        ih _ h]

/-- While the loop has not been left, the next answers of the queues are consumed by one
more iteration. -/
theorem coordLoop_snoc {V : Type} (E : Ext V) (n : Nat) (inputs : List (CoordIn V))
    (i : CoordIn V) :
    ∀ c : Coord V, (coordLoop E n inputs c).left = false →
      (coordLoop E n (inputs ++ [i]) c).c = (coordIter E n (coordLoop E n inputs c).c i).1 ∧
      (coordLoop E n (inputs ++ [i]) c).sent =
        (coordLoop E n inputs c).sent ++ (coordIter E n (coordLoop E n inputs c).c i).2.1.toList ∧
      (coordLoop E n (inputs ++ [i]) c).received =
        (coordLoop E n inputs c).received ++ i.read.toList ∧
      (coordLoop E n (inputs ++ [i]) c).iterations = (coordLoop E n inputs c).iterations + 1 ∧
      (coordLoop E n (inputs ++ [i]) c).left =
        (coordIter E n (coordLoop E n inputs c).c i).2.2 := by
  induction inputs with
  | nil =>
    intro c _
    simp only [List.nil_append, coordLoop_nil]
    by_cases hf : (coordIter E n c i).2.2 = true
    · rw [coordLoop_stop E n c i _ hf]
      simp [hf]
    · have hf2 : (coordIter E n c i).2.2 = false := by
        cases h : (coordIter E n c i).2.2
        · rfl
        · exact absurd h hf
      rw [coordLoop_go E n c i _ hf2]
      simp [hf2, coordLoop_nil]
  | cons j rest ih =>
    intro c h
    by_cases hf : (coordIter E n c j).2.2 = true
    · rw [coordLoop_stop E n c j _ hf] at h
      cases h
    · have hf2 : (coordIter E n c j).2.2 = false := by
        cases h : (coordIter E n c j).2.2
        · rfl
        · exact absurd h hf
      rw [coordLoop_go E n c j rest hf2] at h
      simp only at h
      obtain ⟨h1, h2, h3, h4, h5⟩ := ih _ h
      rw [List.cons_append, coordLoop_go E n c j _ hf2, coordLoop_go E n c j _ hf2]
      simp only
      refine ⟨h1, ?_, ?_, ?_, h5⟩
      · rw [h2, List.append_assoc]
      · rw [h3, List.append_assoc]
      · rw [h4]

theorem coordLoop_first {V : Type} (E : Ext V) (n : Nat) (inputs : List (CoordIn V)) :
    ∀ (c : Coord V) (m : Nat), m < (coordLoop E n inputs c).iterations →
      (coordLoop E n (inputs.take m) c).left = false := by
  induction inputs with
  | nil =>
    intro c m h
    simp [coordLoop_nil] at h
  | cons i rest ih =>
    intro c m h
    cases m with
    | zero => simp [coordLoop_nil]
    | succ m =>
      by_cases hf : (coordIter E n c i).2.2 = true
      · rw [coordLoop_stop E n c i rest hf] at h
        simp at h
      · have hf2 : (coordIter E n c i).2.2 = false := by
          cases h : (coordIter E n c i).2.2
          · rfl
          · exact absurd h hf
        rw [coordLoop_go E n c i rest hf2] at h
        simp only [Nat.add_lt_add_iff_right] at h
        rw [List.take_succ_cons, coordLoop_go E n c i _ hf2]
        exact ih _ m h

/-- C3: in a round, whatever the two queues answer, `response_count` and `task_count` stay
within `0..N_TASKS`, also between the receive and the send of an iteration; the loop has
been left exactly when `response_count = N_TASKS` and is still running exactly when
`response_count < N_TASKS`; the shutdown block has run once if the loop was left and not at
all otherwise; the loop was not left after any earlier iteration; while it is running the
next iteration is executed, and once it is left no further answer is consumed. -/
theorem shutdown_trigger {V : Type} (E : Ext V) (n_workers : Nat)
    (tasks : Fin N_TASKS → compute_task V) (compute_times : Fin MAX_WORKER → V)
    (inputs : List (CoordIn V)) :
    (coordLoop E n_workers inputs (roundStart tasks compute_times)).c.response_count
      ≤ N_TASKS ∧
    (coordLoop E n_workers inputs (roundStart tasks compute_times)).c.task_count ≤ N_TASKS ∧
    ((coordLoop E n_workers inputs (roundStart tasks compute_times)).left = false →
      ∀ r, (coordRecv E n_workers
          (coordLoop E n_workers inputs (roundStart tasks compute_times)).c r).response_count
        ≤ N_TASKS) ∧
    ((coordLoop E n_workers inputs (roundStart tasks compute_times)).left = false ↔
      (coordLoop E n_workers inputs (roundStart tasks compute_times)).c.response_count
        < N_TASKS) ∧
    ((coordLoop E n_workers inputs (roundStart tasks compute_times)).left = true ↔
      (coordLoop E n_workers inputs (roundStart tasks compute_times)).c.response_count
        = N_TASKS) ∧
    (coordLoop E n_workers inputs (roundStart tasks compute_times)).shutdowns =
      (if (coordLoop E n_workers inputs (roundStart tasks compute_times)).left then 1 else 0) ∧
    (∀ m, m < (coordLoop E n_workers inputs (roundStart tasks compute_times)).iterations →
      (coordLoop E n_workers (inputs.take m) (roundStart tasks compute_times)).left = false) ∧
    ((coordLoop E n_workers inputs (roundStart tasks compute_times)).left = false →
      ∀ i,
        (coordLoop E n_workers (inputs ++ [i]) (roundStart tasks compute_times)).iterations =
          inputs.length + 1 ∧
        (coordLoop E n_workers (inputs ++ [i]) (roundStart tasks compute_times)).c =
          (coordIter E n_workers
            (coordLoop E n_workers inputs (roundStart tasks compute_times)).c i).1 ∧
        (coordLoop E n_workers (inputs ++ [i]) (roundStart tasks compute_times)).left =
          decide ((coordIter E n_workers
            (coordLoop E n_workers inputs (roundStart tasks compute_times)).c i).1.response_count
              ≥ N_TASKS)) ∧
    ((coordLoop E n_workers inputs (roundStart tasks compute_times)).left = true →
      ∀ more,
        coordLoop E n_workers (inputs ++ more) (roundStart tasks compute_times) =
          coordLoop E n_workers inputs (roundStart tasks compute_times)) := by
  have h0 : (roundStart tasks compute_times).response_count < N_TASKS := by
    show 0 < N_TASKS
    decide
  have h0t : (roundStart tasks compute_times).task_count ≤ N_TASKS := by
    show 0 ≤ N_TASKS
    decide
  obtain ⟨h1, h2, h3, h4, h5, h6, _⟩ :=
    coordLoop_counts E n_workers inputs (roundStart tasks compute_times) h0 h0t
  refine ⟨h1, h2, ?_, h3, h4, h5, ?_, ?_, ?_⟩
  · intro hl r
    have hlt := h3.mp hl
    have hle := toList_length_le r
    rw [coordRecv_response_count]
    omega
  · intro m hm
    exact coordLoop_first E n_workers inputs _ m hm
  · intro hl i
    obtain ⟨s1, _, _, s4, s5⟩ := coordLoop_snoc E n_workers inputs i _ hl
    refine ⟨?_, s1, ?_⟩
    · rw [s4, h6 hl]
    · rw [s5, coordIter_flag]
  · intro hl more
    exact coordLoop_left_append E n_workers inputs more _ hl

/-- Instance of C3: when each of `N_TASKS` iterations receives a response, the loop is left
and the shutdown block has run once. -/
theorem shutdown_trigger_witness :
    (coordLoop extInt 1 busyInputs sampleCoord).left = true ∧
    (coordLoop extInt 1 busyInputs sampleCoord).shutdowns = 1 ∧
    (coordLoop extInt 1 busyInputs sampleCoord).c.response_count = N_TASKS := by
  have h := shutdown_trigger extInt 1 (buildTasks junkTasks) (fun _ => 0) busyInputs
  have hl : (coordLoop extInt 1 busyInputs sampleCoord).left = true := by decide
  refine ⟨hl, ?_, h.2.2.2.2.1.mp hl⟩
  have h6 := h.2.2.2.2.2.1
  rw [show roundStart (buildTasks junkTasks) (fun _ => (0 : Int)) = sampleCoord from rfl] at h6
  rw [h6, hl]
  rfl

/-! ### Aggregate timing -/

theorem pred_lt_max (k : Nat) (hk1 : 1 ≤ k) (hk2 : k ≤ MAX_WORKER) : k - 1 < MAX_WORKER := by
  omega

theorem coordIter_compute_times {V : Type} (E : Ext V) (n : Nat) (c : Coord V)
    (i : CoordIn V) :
    (coordIter E n c i).1.compute_times = (coordRecv E n c i.read).compute_times := by
  simp [coordIter, coordSend_compute_times]

theorem coordLoop_times {V : Type} (E : Ext V) (k : Nat) (hk : k - 1 < MAX_WORKER)
    (inputs : List (CoordIn V)) :
    ∀ c : Coord V,
      (coordLoop E k inputs c).c.compute_times ⟨k - 1, hk⟩ =
        ((coordLoop E k inputs c).received.map RES.time).foldl E.add
          (c.compute_times ⟨k - 1, hk⟩) ∧
      (∀ j : Fin MAX_WORKER, j.val ≠ k - 1 →
        (coordLoop E k inputs c).c.compute_times j = c.compute_times j) := by
  induction inputs with
  | nil =>
    intro c
    simp [coordLoop_nil]
  | cons i rest ih =>
    intro c
    have e1 : (coordIter E k c i).1.compute_times ⟨k - 1, hk⟩ =
        (i.read.toList.map RES.time).foldl E.add (c.compute_times ⟨k - 1, hk⟩) := by
      rw [coordIter_compute_times]
      cases i.read with
      | none => rfl
      | some msg => simp [coordRecv, arrModify]
    have e2 : ∀ j : Fin MAX_WORKER, j.val ≠ k - 1 →
        (coordIter E k c i).1.compute_times j = c.compute_times j := by
      intro j hj
      rw [coordIter_compute_times]
      cases i.read with
      | none => rfl
      | some msg => simp [coordRecv, arrModify, hj]
    by_cases hf : (coordIter E k c i).2.2 = true
    · rw [coordLoop_stop E k c i rest hf]
      exact ⟨e1, e2⟩
    · have hf2 : (coordIter E k c i).2.2 = false := by
        cases h : (coordIter E k c i).2.2
        · rfl
        · exact absurd h hf
      rw [coordLoop_go E k c i rest hf2]
      obtain ⟨h1, h2⟩ := ih (coordIter E k c i).1
      refine ⟨?_, ?_⟩
      · simp only [List.map_append, List.foldl_append]
        rw [h1, e1]
      · intro j hj
        simp only
        rw [h2 j hj, e2 j hj]

theorem coordLoop_received {V : Type} (E : Ext V) (n : Nat) (inputs : List (CoordIn V)) :
    ∀ c : Coord V,
      (coordLoop E n inputs c).received =
        (inputs.take (coordLoop E n inputs c).iterations).filterMap CoordIn.read := by
  induction inputs with
  | nil =>
    intro c
    simp [coordLoop_nil]
  | cons i rest ih =>
    intro c
    by_cases hf : (coordIter E n c i).2.2 = true
    · rw [coordLoop_stop E n c i rest hf]
      cases h : i.read <;> simp [List.filterMap_cons, h]
    · have hf2 : (coordIter E n c i).2.2 = false := by
        cases h : (coordIter E n c i).2.2
        · rfl
        · exact absurd h hf
      rw [coordLoop_go E n c i rest hf2]
      simp only [List.take_succ_cons]
      rw [ih]
      cases h : i.read <;> simp [List.filterMap_cons, h]

/-- C7: in round `k` of `1..MAX_WORKER`, entered with `compute_times[k-1]` equal to `0`, the
record `compute_times[k-1]` at any point of the round is the sum, added up from `0` in the
order of receipt, of the `time` fields of the responses received so far in the round, which
are the responses of the iterations executed; a receive that finds the queue empty changes
nothing; and every other record of `compute_times` is as it was before the round. -/
theorem aggregate_timing {V : Type} (E : Ext V) (k : Nat) (hk1 : 1 ≤ k)
    (hk2 : k ≤ MAX_WORKER)
    (tasks : Fin N_TASKS → compute_task V) (compute_times : Fin MAX_WORKER → V)
    (hzero : compute_times ⟨k - 1, pred_lt_max k hk1 hk2⟩ = E.zero)
    (inputs : List (CoordIn V)) :
    (coordLoop E k inputs (roundStart tasks compute_times)).c.compute_times
        ⟨k - 1, pred_lt_max k hk1 hk2⟩ =
      ((coordLoop E k inputs (roundStart tasks compute_times)).received.map
        RES.time).foldl E.add E.zero ∧
    (coordLoop E k inputs (roundStart tasks compute_times)).received =
      (inputs.take (coordLoop E k inputs (roundStart tasks compute_times)).iterations).filterMap
        CoordIn.read ∧
    (∀ c : Coord V, coordRecv E k c none = c) ∧
    (∀ j : Fin MAX_WORKER, j.val ≠ k - 1 →
      (coordLoop E k inputs (roundStart tasks compute_times)).c.compute_times j =
        compute_times j) := by
  obtain ⟨h1, h2⟩ :=
    coordLoop_times E k (pred_lt_max k hk1 hk2) inputs (roundStart tasks compute_times)
  refine ⟨?_, coordLoop_received E k inputs _, fun _ => rfl, h2⟩
  rw [h1]
  show List.foldl E.add (compute_times ⟨k - 1, pred_lt_max k hk1 hk2⟩) _ = _
  rw [hzero]

/-- Instance of C7: round 3 receiving `N_TASKS` responses of time 7 records `140`. -/
theorem aggregate_timing_witness :
    (coordLoop extInt 3 busyInputs sampleCoord).c.compute_times ⟨2, by decide⟩ =
      ((coordLoop extInt 3 busyInputs sampleCoord).received.map RES.time).foldl
        extInt.add extInt.zero ∧
    ((coordLoop extInt 3 busyInputs sampleCoord).received.map RES.time).foldl
        extInt.add extInt.zero = 140 :=
  ⟨(aggregate_timing extInt 3 (by decide) (by decide) (buildTasks junkTasks)
      (fun _ => 0) rfl busyInputs).1, by decide⟩

/-! ### Dispatch under backpressure -/

theorem coordIter_cases {V : Type} (E : Ext V) (n : Nat) (c : Coord V) (i : CoordIn V) :
    ((coordIter E n c i).1.task_count = c.task_count ∧ (coordIter E n c i).2.1 = none) ∨
    (∃ h : c.task_count < N_TASKS, i.rc ≠ -1 ∧
      (coordIter E n c i).1.task_count = c.task_count + 1 ∧
      (coordIter E n c i).2.1 = some (mkRequest (c.tasks ⟨c.task_count, h⟩))) := by
  rcases coordSend_cases (coordRecv E n c i.read) i.rc with h | ⟨h, hrc, he⟩
  · left
    simp only [coordIter, h]
    exact ⟨coordRecv_task_count E n c i.read, trivial⟩
  · right
    have htc := coordRecv_task_count E n c i.read
    have h2 : c.task_count < N_TASKS := by
      rw [← htc]
      exact h
    refine ⟨h2, hrc, ?_, ?_⟩
    · simp only [coordIter, he, htc]
    · simp only [coordIter, he]
      have e : (⟨(coordRecv E n c i.read).task_count, h⟩ : Fin N_TASKS) = ⟨c.task_count, h2⟩ :=
        Fin.ext htc
      rw [e, coordRecv_mkRequest]

theorem coordIter_mkRequest {V : Type} (E : Ext V) (n : Nat) (c : Coord V) (i : CoordIn V)
    (k : Fin N_TASKS) :
    mkRequest ((coordIter E n c i).1.tasks k) = mkRequest (c.tasks k) := by
  simp only [coordIter, coordSend_tasks]
  exact coordRecv_mkRequest E n c i.read k

theorem iter_sent {V : Type} (E : Ext V) (n : Nat) (c : Coord V) (i : CoordIn V) :
    (coordIter E n c i).2.1.toList.length + c.task_count = (coordIter E n c i).1.task_count ∧
    (∀ (j : Nat) (hN : c.task_count + j < N_TASKS),
      j < (coordIter E n c i).2.1.toList.length →
        (coordIter E n c i).2.1.toList[j]? =
          some (mkRequest (c.tasks ⟨c.task_count + j, hN⟩))) := by
  rcases coordIter_cases E n c i with ⟨h1, h2⟩ | ⟨h, _, h1, h2⟩
  · rw [h1, h2]
    simp
  · rw [h1, h2]
    refine ⟨by simp; omega, ?_⟩
    intro j hN hj
    simp only [Option.toList, List.length_singleton, Nat.lt_one_iff] at hj
    subst hj
    simp

theorem coordLoop_sent {V : Type} (E : Ext V) (n : Nat) (inputs : List (CoordIn V)) :
    ∀ c : Coord V,
      (coordLoop E n inputs c).sent.length + c.task_count =
        (coordLoop E n inputs c).c.task_count ∧
      (∀ (j : Nat) (hN : c.task_count + j < N_TASKS),
        j < (coordLoop E n inputs c).sent.length →
          (coordLoop E n inputs c).sent[j]? =
            some (mkRequest (c.tasks ⟨c.task_count + j, hN⟩))) := by
  induction inputs with
  | nil =>
    intro c
    simp [coordLoop_nil]
  | cons i rest ih =>
    intro c
    obtain ⟨e1, e2⟩ := iter_sent E n c i
    by_cases hf : (coordIter E n c i).2.2 = true
    · rw [coordLoop_stop E n c i rest hf]
      exact ⟨e1, e2⟩
    · have hf2 : (coordIter E n c i).2.2 = false := by
        cases h : (coordIter E n c i).2.2
        · rfl
        · exact absurd h hf
      rw [coordLoop_go E n c i rest hf2]
      obtain ⟨h1, h2⟩ := ih (coordIter E n c i).1
      refine ⟨?_, ?_⟩
      · simp only [List.length_append]
        omega
      · intro j hN hj
        simp only [List.length_append] at hj
        by_cases hj1 : j < (coordIter E n c i).2.1.toList.length
        · rw [List.getElem?_append_left hj1]
          exact e2 j hN hj1
        · have hj2 : (coordIter E n c i).2.1.toList.length ≤ j := Nat.le_of_not_lt hj1
          rw [List.getElem?_append_right hj2]
          have hN2 : (coordIter E n c i).1.task_count +
              (j - (coordIter E n c i).2.1.toList.length) < N_TASKS := by omega
          have h3 := h2 (j - (coordIter E n c i).2.1.toList.length) hN2 (by omega)
          rw [h3, coordIter_mkRequest]
          have e : (⟨(coordIter E n c i).1.task_count +
              (j - (coordIter E n c i).2.1.toList.length), hN2⟩ : Fin N_TASKS) =
              ⟨c.task_count + j, hN⟩ := by
            apply Fin.ext
            show (coordIter E n c i).1.task_count +
              (j - (coordIter E n c i).2.1.toList.length) = c.task_count + j
            omega
          rw [e]

theorem buildTasks_at {V : Type} (init : Fin N_TASKS → compute_task V) (k : Nat)
    (hk : k < N_TASKS) :
    buildTasks init ⟨k, hk⟩ =
      { id := k, x_min := x_min.getD (k / 4) 0, x_max := x_max.getD (k / 4) 0,
        function := functions.getD (k % 4) Fn.f1, result := (init ⟨k, hk⟩).result } := by
  have hk20 : k < 20 := hk
  obtain ⟨h1, h2, h3⟩ := index_split k hk20
  have h : k / 4 * 4 + k % 4 < N_TASKS := by rw [h3]; exact hk
  have e := buildTasks_entry init (k / 4) (k % 4) h1 h2 h
  have e2 : (⟨k, hk⟩ : Fin N_TASKS) = ⟨k / 4 * 4 + k % 4, h⟩ := by
    apply Fin.ext; exact h3.symm
  rw [e2, e]
  simp only [h3]

theorem catalog_lookup (k : Nat) (hk : k < 20) :
    x_min[k / 4]? = some (x_min.getD (k / 4) 0) ∧
    x_max[k / 4]? = some (x_max.getD (k / 4) 0) ∧
    functions[k % 4]? = some (functions.getD (k % 4) Fn.f1) := by
  have h1 : k / 4 < 5 := by omega
  have h2 : k % 4 < 4 := Nat.mod_lt _ (by decide)
  generalize k / 4 = a at h1
  generalize k % 4 = b at h2
  interval_cases a <;> interval_cases b <;> exact ⟨rfl, rfl, rfl⟩

/-- C2: in a round on the built table, whatever the two queues answer, the requests accepted
so far are exactly the tasks `0, 1, .., task_count-1` of the table in that order: request
`i` has id `i`, and its `min`, `max` and `function` are the `x_min`, `x_max` and `function`
of task `i` of the table, that is the bounds of range `i / 4` and function `i % 4`; so the
ids accepted are `0, 1, .., task_count-1` and no id is requested twice.  A rejected send
(`-1`) leaves the state of the parent as it is and the request offered in the next iteration
is the same one, whatever is received in between; an accepted send advances `task_count` by
exactly one and the request accepted carries the id, bounds and function of the task at
`task_count`. -/
theorem backpressure_no_drop {V : Type} (E : Ext V) (n_workers : Nat)
    (init : Fin N_TASKS → compute_task V) (compute_times : Fin MAX_WORKER → V)
    (inputs : List (CoordIn V)) :
    (coordLoop E n_workers inputs (roundStart (buildTasks init) compute_times)).sent.length =
      (coordLoop E n_workers inputs (roundStart (buildTasks init) compute_times)).c.task_count ∧
    (coordLoop E n_workers inputs (roundStart (buildTasks init) compute_times)).c.task_count
      ≤ N_TASKS ∧
    (∀ (i : Nat) (hN : i < N_TASKS),
      i < (coordLoop E n_workers inputs
          (roundStart (buildTasks init) compute_times)).c.task_count →
        (coordLoop E n_workers inputs (roundStart (buildTasks init) compute_times)).sent[i]? =
          some { id := i, min := (buildTasks init ⟨i, hN⟩).x_min,
                 max := (buildTasks init ⟨i, hN⟩).x_max,
                 function := (buildTasks init ⟨i, hN⟩).function } ∧
        (buildTasks init ⟨i, hN⟩).id = i ∧
        x_min[i / 4]? = some (buildTasks init ⟨i, hN⟩).x_min ∧
        x_max[i / 4]? = some (buildTasks init ⟨i, hN⟩).x_max ∧
        functions[i % 4]? = some (buildTasks init ⟨i, hN⟩).function) ∧
    (coordLoop E n_workers inputs (roundStart (buildTasks init) compute_times)).sent.map REQ.id =
      List.range
        (coordLoop E n_workers inputs (roundStart (buildTasks init) compute_times)).c.task_count ∧
    ((coordLoop E n_workers inputs
      (roundStart (buildTasks init) compute_times)).sent.map REQ.id).Nodup ∧
    (∀ c : Coord V, coordSend c (-1) = (c, none)) ∧
    (∀ (c : Coord V) (read : Option (RES V)),
      nextRequest (coordRecv E n_workers (coordSend c (-1)).1 read) = nextRequest c) ∧
    (∀ (c : Coord V) (h : c.task_count < N_TASKS),
      nextRequest c =
        some { id := (c.tasks ⟨c.task_count, h⟩).id,
               min := (c.tasks ⟨c.task_count, h⟩).x_min,
               max := (c.tasks ⟨c.task_count, h⟩).x_max,
               function := (c.tasks ⟨c.task_count, h⟩).function }) ∧
    (∀ (c : Coord V) (rc : Int) (h : c.task_count < N_TASKS), rc ≠ -1 →
      coordSend c rc =
        ({ tasks := c.tasks, compute_times := c.compute_times,
           task_count := c.task_count + 1, response_count := c.response_count },
          some { id := (c.tasks ⟨c.task_count, h⟩).id,
                 min := (c.tasks ⟨c.task_count, h⟩).x_min,
                 max := (c.tasks ⟨c.task_count, h⟩).x_max,
                 function := (c.tasks ⟨c.task_count, h⟩).function })) := by
  have h0 : (roundStart (buildTasks init) compute_times).response_count < N_TASKS := by
    show 0 < N_TASKS
    decide
  have h0t : (roundStart (buildTasks init) compute_times).task_count ≤ N_TASKS := by
    show 0 ≤ N_TASKS
    decide
  obtain ⟨_, hle, _⟩ :=
    coordLoop_counts E n_workers inputs (roundStart (buildTasks init) compute_times) h0 h0t
  obtain ⟨hlen, hget⟩ :=
    coordLoop_sent E n_workers inputs (roundStart (buildTasks init) compute_times)
  have hlen2 : (coordLoop E n_workers inputs
      (roundStart (buildTasks init) compute_times)).sent.length =
      (coordLoop E n_workers inputs
        (roundStart (buildTasks init) compute_times)).c.task_count := by
    have : (roundStart (buildTasks init) compute_times).task_count = 0 := rfl
    omega
  have hget2 : ∀ (i : Nat) (hN : i < N_TASKS),
      i < (coordLoop E n_workers inputs
          (roundStart (buildTasks init) compute_times)).c.task_count →
        (coordLoop E n_workers inputs (roundStart (buildTasks init) compute_times)).sent[i]? =
          some (mkRequest (buildTasks init ⟨i, hN⟩)) := by
    intro i hN hi
    have hN2 : (roundStart (buildTasks init) compute_times).task_count + i < N_TASKS := by
      show 0 + i < N_TASKS
      omega
    have h := hget i hN2 (by omega)
    rw [h]
    have e : (⟨(roundStart (buildTasks init) compute_times).task_count + i, hN2⟩ :
        Fin N_TASKS) = ⟨i, hN⟩ := by
      apply Fin.ext
      show 0 + i = i
      omega
    rw [e]
    rfl
  have hids : (coordLoop E n_workers inputs
      (roundStart (buildTasks init) compute_times)).sent.map REQ.id =
      List.range (coordLoop E n_workers inputs
        (roundStart (buildTasks init) compute_times)).c.task_count := by
    apply List.ext_getElem?
    intro i
    by_cases hi : i < (coordLoop E n_workers inputs
        (roundStart (buildTasks init) compute_times)).c.task_count
    · have hN : i < N_TASKS := by omega
      rw [List.getElem?_map, hget2 i hN hi, List.getElem?_range hi]
      simp only [Option.map_some']
      congr 1
      exact buildTasks_id init ⟨i, hN⟩
    · have hi2 := Nat.le_of_not_lt hi
      rw [List.getElem?_eq_none (by simp [hlen2]; exact hi2),
        List.getElem?_eq_none (by simp; exact hi2)]
  refine ⟨hlen2, hle, ?_, hids, ?_, ?_, ?_, ?_, ?_⟩
  · intro i hN hi
    have hid : (buildTasks init ⟨i, hN⟩).id = i := buildTasks_id init ⟨i, hN⟩
    obtain ⟨c1, c2, c3⟩ := catalog_lookup i hN
    refine ⟨?_, hid, ?_, ?_, ?_⟩
    · rw [hget2 i hN hi]
      simp only [mkRequest, hid]
    · rw [c1, buildTasks_at init i hN]
    · rw [c2, buildTasks_at init i hN]
    · rw [c3, buildTasks_at init i hN]
  · rw [hids]
    exact List.nodup_range _
  · intro c
    unfold coordSend
    cases nextRequest c <;> simp
  · intro c read
    have e : (coordSend c (-1)).1 = c := by
      unfold coordSend
      cases nextRequest c <;> simp
    rw [e]
    unfold nextRequest
    rw [coordRecv_task_count]
    by_cases h : c.task_count < N_TASKS
    · simp only [h, dite_true]
      rw [coordRecv_mkRequest]
    · simp [h]
  · intro c h
    simp [nextRequest, mkRequest, h]
  · intro c rc h hrc
    simp [coordSend, nextRequest, mkRequest, h, hrc]

/-- Instance of C2: with the request queue full in the first and third iteration, the
requests accepted after four iterations are those of tasks 0 and 1; the second one has id 1,
the bounds of range `[0,1]` and function `f2`. -/
theorem backpressure_no_drop_witness :
    (coordLoop extInt 1 fullInputs sampleCoord).c.task_count = 2 ∧
    (coordLoop extInt 1 fullInputs sampleCoord).sent[1]? =
      some { id := 1, min := 0, max := 1, function := Fn.f2 } := by
  have htc : (coordLoop extInt 1 fullInputs sampleCoord).c.task_count = 2 := by decide
  refine ⟨htc, ?_⟩
  have h := ((backpressure_no_drop extInt 1 junkTasks (fun _ => 0) fullInputs).2.2.1 1
    (by decide) (by rw [show roundStart (buildTasks junkTasks) (fun _ => (0 : Int)) =
      sampleCoord from rfl, htc]; decide)).1
  rw [show roundStart (buildTasks junkTasks) (fun _ => (0 : Int)) = sampleCoord from rfl] at h
  rw [h]
  decide

/-! ## The processes of a round together -/

theorem held_set {V : Type} (x : Nat) (p p1 : Proc V) :
    ∀ (ps : List (Proc V)) (i : Nat), ps[i]? = some p →
      (heldByProcs (ps.set i p1)).count x + (inflight p).count x =
        (heldByProcs ps).count x + (inflight p1).count x := by
  intro ps
  induction ps with
  | nil =>
    intro i h
    simp at h
  | cons a ps ih =>
    intro i h
    cases i with
    | zero =>
      simp only [List.getElem?_cons_zero, Option.some.injEq] at h
      subst h
      simp only [List.set_cons_zero, heldByProcs, List.count_append]
      omega
    | succ i =>
      simp only [List.getElem?_cons_succ] at h
      have := ih i h
      simp only [List.set_cons_succ, heldByProcs, List.count_append]
      omega

theorem held_modify_same {V : Type} (f : Proc V → Proc V)
    (hf : ∀ p, inflight (f p) = inflight p) :
    ∀ (ps : List (Proc V)) (i : Nat), heldByProcs (ps.modify f i) = heldByProcs ps := by
  intro ps
  induction ps with
  | nil =>
    intro i
    cases i <;> rfl
  | cons a ps ih =>
    intro i
    cases i with
    | zero => simp [List.modify, heldByProcs, hf]
    | succ i =>
      rw [List.modify_succ_cons]
      simp only [heldByProcs]
      rw [ih i]

theorem held_deliver {V : Type} (ps : List (Proc V)) (p : Nat) :
    heldByProcs (deliver ps p) = heldByProcs ps := by
  unfold deliver
  apply held_modify_same
  intro pr
  cases h : pr.phase <;> simp [inflight, h]

theorem held_foldl_deliver {V : Type} (pid : List Nat) (cs : List Nat) :
    ∀ ps : List (Proc V),
      heldByProcs (cs.foldl
        (fun procs c =>
          match pid[c]? with
          | some p => deliver procs p
          | none => procs) ps) = heldByProcs ps := by
  induction cs with
  | nil =>
    intro ps
    rfl
  | cons c cs ih =>
    intro ps
    rw [List.foldl_cons, ih]
    cases pid[c]? with
    | none => rfl
    | some p => exact held_deliver ps p

theorem held_killAll {V : Type} (s : Sys V) : heldByProcs (killAll s) = heldByProcs s.procs := by
  unfold killAll
  exact held_foldl_deliver s.pid _ s.procs

theorem held_reapOne {V : Type} :
    ∀ ps : List (Proc V), heldByProcs (reapOne ps) = heldByProcs ps := by
  intro ps
  induction ps with
  | nil => rfl
  | cons a ps ih =>
    cases h : a.phase <;> simp [reapOne, h, heldByProcs, inflight, ih]

theorem held_replicate {V : Type} (n : Nat) (f : Int) :
    heldByProcs (List.replicate n ({ phase := WPhase.polling, is_sigusr1 := f } : Proc V)) =
      [] := by
  induction n with
  | zero => rfl
  | succ n ih => simp [List.replicate_succ, heldByProcs, inflight, ih]

theorem held_append {V : Type} (ps qs : List (Proc V)) :
    heldByProcs (ps ++ qs) = heldByProcs ps ++ heldByProcs qs := by
  induction ps with
  | nil => rfl
  | cons a ps ih => simp [heldByProcs, ih]

theorem held_mem {V : Type} (ps : List (Proc V)) (h : heldByProcs ps = []) :
    ∀ p ∈ ps, inflight p = [] := by
  induction ps with
  | nil =>
    intro p hp
    simp at hp
  | cons a ps ih =>
    simp only [heldByProcs, List.append_eq_nil] at h
    intro p hp
    rcases List.mem_cons.mp hp with rfl | hp
    · exact h.1
    · exact ih h.2 p hp

theorem count_range_succ (x n : Nat) :
    (List.range (n + 1)).count x = (List.range n).count x + (if x = n then 1 else 0) := by
  rw [List.range_succ, List.count_append, List.count_singleton]
  by_cases h : x = n
  · simp [h]
  · have h2 : ¬ n = x := fun e => h e.symm
    simp [h, h2]

theorem count_range_le_one (x n : Nat) : (List.range n).count x ≤ 1 :=
  List.nodup_iff_count_le_one.mp (List.nodup_range n) x

theorem count_range_pos (x n : Nat) (h : 0 < (List.range n).count x) : x < n := by
  have := List.count_pos_iff.mp h
  exact List.mem_range.mp this

theorem workerPoll_inflight {V : Type} (E : Ext V) (m : REQ) (tc : Bool) (tt : V)
    (p : Proc V) (x : Nat) :
    (inflight { p with phase := (workerPoll E (some m) tc tt).1 }).count x ≤
      ([m.id] : List Nat).count x := by
  simp only [workerPoll]
  split
  · split
    · simp [inflight]
    · split
      · simp [inflight]
      · simp [inflight]
  · simp [inflight]

theorem nextRequest_some {V : Type} (c : Coord V) (msg : REQ) (h : nextRequest c = some msg) :
    ∃ hN : c.task_count < N_TASKS, msg = mkRequest (c.tasks ⟨c.task_count, hN⟩) := by
  unfold nextRequest at h
  by_cases hN : c.task_count < N_TASKS
  · simp only [hN, dite_true, Option.some.injEq] at h
    exact ⟨hN, h.symm⟩
  · simp [hN] at h

theorem coordSend_rejected {V : Type} (c : Coord V) : coordSend c (-1) = (c, none) := by
  unfold coordSend
  cases nextRequest c <;> simp

theorem coordSend_accepted {V : Type} (c : Coord V) (msg : REQ) (rc : Int)
    (h : nextRequest c = some msg) (hrc : rc ≠ -1) :
    coordSend c rc = ({ c with task_count := c.task_count + 1 }, some msg) := by
  unfold coordSend
  simp [h, hrc]

theorem coordStep_inv {V : Type} (E : Ext V) (init : Fin N_TASKS → compute_task V)
    (s : Sys V) (h : RoundInv init s) : RoundInv init (coordStep E s) := by
  obtain ⟨hcat, htc, hdis, hlen, hheld, hres⟩ := h
  rw [coordStep]
  split
  · -- the receive of line 247
    cases hq : s.resQ with
    | nil =>
      refine ⟨hcat, htc, hdis, ?_, ?_, ?_⟩
      · simpa [mq_receive, coordRecv] using hlen
      · intro x
        have := hheld x
        simpa [mq_receive, coordRecv, hq] using this
      · simpa [mq_receive, coordRecv] using hres
    | cons m rest =>
      refine ⟨?_, ?_, ?_, ?_, ?_, ?_⟩
      · intro k
        simp only [mq_receive]
        rw [coordRecv_mkRequest]
        exact hcat k
      · simpa [mq_receive, coordRecv] using htc
      · simpa [mq_receive, coordRecv] using hdis
      · simp [mq_receive, coordRecv, hlen]
      · intro x
        have := hheld x
        rw [hq] at this
        simp only [List.map_cons, List.count_cons] at this
        simp only [mq_receive, coordRecv, Option.toList, List.map_append, List.map_cons,
          List.map_nil, List.count_append, List.count_cons, List.count_nil]
        omega
      · intro r hr hlt
        simp only [mq_receive, Option.toList] at hr
        simp only [mq_receive, coordRecv, arrModify]
        rcases List.mem_append.mp hr with hr1 | hr2
        · have hne : r.id ≠ m.id := by
            intro e
            have h1 := hheld m.id
            rw [hq] at h1
            simp only [List.map_cons, List.count_cons_self] at h1
            have h2 : 0 < (s.collected.map RES.id).count m.id := by
              apply List.count_pos_iff.mpr
              rw [← e]
              exact List.mem_map_of_mem RES.id hr1
            have h3 := count_range_le_one m.id s.coord.task_count
            omega
          simp only [hne, if_false]
          exact hres r hr1 hlt
        · simp only [List.mem_singleton] at hr2
          subst hr2
          simp
  · -- the send of lines 258-271
    split
    · exact ⟨hcat, htc, hdis, hlen, hheld, hres⟩
    · rename_i msg hnr
      obtain ⟨hN, hmsg⟩ := nextRequest_some s.coord msg hnr
      have hid : msg.id = s.coord.task_count := by
        rw [hmsg, hcat ⟨s.coord.task_count, hN⟩]
        exact buildTasks_id init ⟨s.coord.task_count, hN⟩
      by_cases hfull : s.reqQ.length < MAX_QUEUE
      · have e1 : mq_send s.reqQ msg = (0, s.reqQ ++ [msg]) := by simp [mq_send, hfull]
        have e2 := coordSend_accepted s.coord msg 0 hnr (by decide)
        simp only [e1, e2]
        refine ⟨hcat, hN, ?_, hlen, ?_, hres⟩
        · simp only [Option.toList, List.map_append, List.map_cons, List.map_nil, hdis, hid,
            List.range_succ]
        · intro x
          have := hheld x
          simp only [List.map_append, List.map_cons, List.map_nil, List.count_append,
            List.count_singleton, hid]
          rw [count_range_succ]
          by_cases hx : x = s.coord.task_count
          · subst hx
            simp only [beq_self_eq_true, if_true]
            omega
          · have hx2 : (s.coord.task_count == x) = false := by
              simp only [beq_eq_false_iff_ne, ne_eq]
              exact fun e => hx e.symm
            simp only [hx2, hx, if_false]
            simpa using this
      · have e1 : mq_send s.reqQ msg = (-1, s.reqQ) := by simp [mq_send, hfull]
        have e2 := coordSend_rejected s.coord
        simp only [e1, e2]
        exact ⟨hcat, htc, by simpa using hdis, hlen, hheld, hres⟩
  · -- the test of line 275
    split
    · refine ⟨hcat, htc, hdis, hlen, ?_, hres⟩
      intro x
      have := hheld x
      simpa [shutdown, held_reapOne, held_killAll] using this
    · exact ⟨hcat, htc, hdis, hlen, hheld, hres⟩
  · exact ⟨hcat, htc, hdis, hlen, hheld, hres⟩

theorem workerAct_inv {V : Type} (E : Ext V) (init : Fin N_TASKS → compute_task V)
    (s : Sys V) (i : Nat) (tc : Bool) (tt : V) (h : RoundInv init s) :
    RoundInv init (workerAct E s i tc tt) := by
  obtain ⟨hcat, htc, hdis, hlen, hheld, hres⟩ := h
  rw [workerAct]
  split
  · exact ⟨hcat, htc, hdis, hlen, hheld, hres⟩
  · rename_i p hp
    split
    · -- a poll of the request queue
      rename_i hph
      have hin : inflight p = [] := by simp [inflight, hph]
      cases hq : s.reqQ with
      | nil =>
        refine ⟨hcat, htc, hdis, hlen, ?_, hres⟩
        intro x
        have h1 := hheld x
        have h2 := held_set x p { p with phase := (WPhase.polling : WPhase V) } s.procs i hp
        have h3 : inflight { p with phase := (WPhase.polling : WPhase V) } = [] := by
          simp [inflight]
        rw [hq] at h1
        rw [hin, h3] at h2
        simp only [mq_receive, workerPoll]
        simp only [List.map_nil, List.count_nil] at h1 h2 ⊢
        omega
      | cons m rest =>
        refine ⟨hcat, htc, hdis, hlen, ?_, hres⟩
        intro x
        have h1 := hheld x
        have h2 := held_set x p { p with phase := (workerPoll E (some m) tc tt).1 } s.procs i hp
        have h3 := workerPoll_inflight E m tc tt p x
        rw [hq] at h1
        rw [hin] at h2
        simp only [mq_receive]
        simp only [List.map_cons, List.count_cons, List.count_nil] at h1 h2 h3 ⊢
        omega
    · -- an attempt to send the response
      rename_i msg hph
      have hin : inflight p = [msg.id] := by simp [inflight, hph]
      by_cases hfull : s.resQ.length < MAX_QUEUE
      · have e1 : mq_send s.resQ msg = (0, s.resQ ++ [msg]) := by simp [mq_send, hfull]
        refine ⟨hcat, htc, hdis, hlen, ?_, hres⟩
        intro x
        have h1 := hheld x
        have h2 := held_set x p { p with phase := (WPhase.checking : WPhase V) } s.procs i hp
        have h3 : inflight { p with phase := (WPhase.checking : WPhase V) } = [] := by
          simp [inflight]
        rw [hin, h3] at h2
        simp only [e1, workerSend]
        simp only [List.map_append, List.map_cons, List.map_nil, List.count_append,
          List.count_cons, List.count_nil] at h1 h2 ⊢
        simp only [show ((0 : Int) = -1) = False from by simp, if_false]
        omega
      · have e1 : mq_send s.resQ msg = (-1, s.resQ) := by simp [mq_send, hfull]
        refine ⟨hcat, htc, hdis, hlen, ?_, hres⟩
        intro x
        have h1 := hheld x
        have h2 := held_set x p { p with phase := WPhase.sending msg } s.procs i hp
        have h3 : inflight { p with phase := WPhase.sending msg } = [msg.id] := by
          simp [inflight]
        rw [hin, h3] at h2
        simp only [e1, workerSend]
        simp only [if_true]
        omega
    · -- the test of the flag
      rename_i hph
      have hin : inflight p = [] := by simp [inflight, hph]
      refine ⟨hcat, htc, hdis, hlen, ?_, hres⟩
      intro x
      have h1 := hheld x
      have h2 := held_set x p { p with phase := (workerCheck p.is_sigusr1).1 } s.procs i hp
      have h3 : inflight { p with phase := ((workerCheck p.is_sigusr1).1 : WPhase V) } = [] := by
        simp only [workerCheck]
        split <;> simp [inflight]
      rw [hin, h3] at h2
      simp only [List.count_nil] at h2
      dsimp only
      omega
    · exact ⟨hcat, htc, hdis, hlen, hheld, hres⟩
    · exact ⟨hcat, htc, hdis, hlen, hheld, hres⟩

theorem step_inv {V : Type} (E : Ext V) (init : Fin N_TASKS → compute_task V)
    (s : Sys V) (a : Action V) (h : RoundInv init s) : RoundInv init (step E s a) := by
  cases a with
  | coord => exact coordStep_inv E init s h
  | worker i tc tt => exact workerAct_inv E init s i tc tt h

theorem run_inv {V : Type} (E : Ext V) (init : Fin N_TASKS → compute_task V)
    (sched : List (Action V)) :
    ∀ s : Sys V, RoundInv init s → RoundInv init (run E s sched) := by
  induction sched with
  | nil =>
    intro s h
    exact h
  | cons a rest ih =>
    intro s h
    exact ih (step E s a) (step_inv E init s a h)

theorem initRound_inv {V : Type} (k : Nat) (init : Fin N_TASKS → compute_task V)
    (compute_times : Fin MAX_WORKER → V) :
    RoundInv init (initRound k (buildTasks init) compute_times) := by
  refine ⟨fun _ => rfl, ?_, rfl, rfl, ?_, ?_⟩
  · show 0 ≤ N_TASKS
    exact Nat.zero_le _
  · intro x
    simp [initRound, startRound, boot, roundStart, held_replicate]
  · intro r hr
    simp [initRound, startRound] at hr

theorem subperm_of_count_le (l1 l2 : List Nat) (h : ∀ x, l1.count x ≤ l2.count x) :
    l1.Subperm l2 :=
  List.subperm_ext_iff.mpr (fun x _ => h x)

/-- What the invariant gives at any moment, and when `response_count` has reached `N_TASKS`. -/
theorem roundInv_facts {V : Type} (init : Fin N_TASKS → compute_task V) (s : Sys V)
    (h : RoundInv init s) :
    s.dispatched.map REQ.id = List.range s.coord.task_count ∧
    s.coord.task_count ≤ N_TASKS ∧
    s.collected.length = s.coord.response_count ∧
    s.coord.response_count ≤ N_TASKS ∧
    (s.collected.map RES.id).Subperm (s.dispatched.map REQ.id) ∧
    (N_TASKS ≤ s.coord.response_count →
      s.dispatched.map REQ.id = List.range N_TASKS ∧
      (s.collected.map RES.id).Perm (List.range N_TASKS) ∧
      s.dispatched.length = N_TASKS ∧
      s.collected.length = N_TASKS ∧
      s.coord.task_count = N_TASKS ∧
      s.coord.response_count = N_TASKS ∧
      s.reqQ = [] ∧ s.resQ = [] ∧ (∀ p ∈ s.procs, inflight p = []) ∧
      (∀ r ∈ s.collected, ∃ hN : r.id < N_TASKS,
        (s.coord.tasks ⟨r.id, hN⟩).result = r.result)) := by
  obtain ⟨hcat, htc, hdis, hlen, hheld, hres⟩ := h
  have hall : (s.collected.map RES.id ++ (s.resQ.map RES.id ++
      (heldByProcs s.procs ++ s.reqQ.map REQ.id))).Subperm (List.range s.coord.task_count) := by
    apply subperm_of_count_le
    intro x
    have := hheld x
    simp only [List.count_append]
    omega
  have hall_len := hall.length_le
  simp only [List.length_append, List.length_map, List.length_range] at hall_len
  have hsub : (s.collected.map RES.id).Subperm (List.range s.coord.task_count) := by
    apply subperm_of_count_le
    intro x
    have := hheld x
    omega
  refine ⟨hdis, htc, hlen, by omega, by rw [hdis]; exact hsub, ?_⟩
  intro hge
  have htcN : s.coord.task_count = N_TASKS := by omega
  have hrcN : s.coord.response_count = N_TASKS := by omega
  have hperm : (s.collected.map RES.id).Perm (List.range s.coord.task_count) := by
    apply hsub.perm_of_length_le
    simp only [List.length_map, List.length_range]
    omega
  have hq1 : s.reqQ = [] := List.eq_nil_of_length_eq_zero (by omega)
  have hq2 : s.resQ = [] := List.eq_nil_of_length_eq_zero (by omega)
  have hq3 : heldByProcs s.procs = [] := List.eq_nil_of_length_eq_zero (by omega)
  have hdl : s.dispatched.length = N_TASKS := by
    have := congrArg List.length hdis
    simp only [List.length_map, List.length_range] at this
    omega
  refine ⟨by rw [hdis, htcN], by rw [← htcN]; exact hperm, hdl, by omega, htcN, hrcN,
    hq1, hq2, held_mem s.procs hq3, ?_⟩
  intro r hr
  have hmem : r.id ∈ List.range s.coord.task_count :=
    hperm.subset (List.mem_map_of_mem RES.id hr)
  have hN : r.id < N_TASKS := by
    have := List.mem_range.mp hmem
    omega
  exact ⟨hN, hres r hr hN⟩

/-- C1: take a round with a pool of `k` workers, for any `k` and so for `1 <= k <= MAX_WORKER`,
that starts on the built table with both queues empty, and any interleaving `sched` of steps of the parent and
of the workers, with any outcomes of the timer calls.  In the state reached, the requests
dispatched are those of tasks `0..task_count-1`, `response_count` is the number of responses
collected and is at most `N_TASKS`, and the ids of the responses collected are, counted with
multiplicity, among the ids dispatched.  When `response_count` has reached `N_TASKS`, which
is when the parent triggers the shutdown, the ids dispatched are exactly `0..N_TASKS-1`, the
ids collected are a permutation of `0..N_TASKS-1`, exactly `N_TASKS` requests were sent and
`N_TASKS` responses received, both queues are empty and no worker holds a task; as the
receive step stores one result per response collected, each task had its result stored
once, for a dispatched id, and the table holds the result of every response collected. -/
theorem round_trip {V : Type} (E : Ext V) (k : Nat)
    (init : Fin N_TASKS → compute_task V) (compute_times : Fin MAX_WORKER → V)
    (sched : List (Action V)) :
    (run E (initRound k (buildTasks init) compute_times) sched).dispatched.map REQ.id =
      List.range (run E (initRound k (buildTasks init) compute_times) sched).coord.task_count ∧
    (run E (initRound k (buildTasks init) compute_times) sched).coord.task_count ≤ N_TASKS ∧
    (run E (initRound k (buildTasks init) compute_times) sched).collected.length =
      (run E (initRound k (buildTasks init) compute_times) sched).coord.response_count ∧
    (run E (initRound k (buildTasks init) compute_times) sched).coord.response_count
      ≤ N_TASKS ∧
    ((run E (initRound k (buildTasks init) compute_times) sched).collected.map RES.id).Subperm
      ((run E (initRound k (buildTasks init) compute_times) sched).dispatched.map REQ.id) ∧
    (N_TASKS ≤ (run E (initRound k (buildTasks init) compute_times) sched).coord.response_count →
      (run E (initRound k (buildTasks init) compute_times) sched).dispatched.map REQ.id =
        List.range N_TASKS ∧
      ((run E (initRound k (buildTasks init) compute_times) sched).collected.map RES.id).Perm
        (List.range N_TASKS) ∧
      (run E (initRound k (buildTasks init) compute_times) sched).dispatched.length = N_TASKS ∧
      (run E (initRound k (buildTasks init) compute_times) sched).collected.length = N_TASKS ∧
      (run E (initRound k (buildTasks init) compute_times) sched).coord.task_count = N_TASKS ∧
      (run E (initRound k (buildTasks init) compute_times) sched).coord.response_count
        = N_TASKS ∧
      (run E (initRound k (buildTasks init) compute_times) sched).reqQ = [] ∧
      (run E (initRound k (buildTasks init) compute_times) sched).resQ = [] ∧
      (∀ p ∈ (run E (initRound k (buildTasks init) compute_times) sched).procs,
        inflight p = []) ∧
      (∀ r ∈ (run E (initRound k (buildTasks init) compute_times) sched).collected,
        ∃ hN : r.id < N_TASKS,
          ((run E (initRound k (buildTasks init) compute_times) sched).coord.tasks
            ⟨r.id, hN⟩).result = r.result)) :=
  roundInv_facts init _ (run_inv E init sched _ (initRound_inv k init compute_times))

set_option maxRecDepth 100000

theorem serial_round_complete : N_TASKS ≤ afterRoundOne.coord.response_count := by
  decide

/-- Instance of C1: the round with one worker under `serialSchedule` reaches the shutdown
with ids `0..N_TASKS-1` dispatched and collected. -/
theorem round_trip_witness :
    N_TASKS ≤ afterRoundOne.coord.response_count ∧
    afterRoundOne.dispatched.map REQ.id = List.range N_TASKS ∧
    (afterRoundOne.collected.map RES.id).Perm (List.range N_TASKS) :=
  ⟨serial_round_complete,
    ((round_trip extInt 1 junkTasks (fun _ => 0) serialSchedule).2.2.2.2.2
      serial_round_complete).1,
    ((round_trip extInt 1 junkTasks (fun _ => 0) serialSchedule).2.2.2.2.2
      serial_round_complete).2.1⟩

/-- Two steps of the parent from the head of the loop are the receive and the send of one
iteration of `coordIter`, on the answers the two queues give; the third step leaves the loop
exactly when the test of `coordIter` holds. -/
theorem coordStep_iteration {V : Type} (E : Ext V) (s : Sys V) (h : s.pc = CPc.recv) :
    (coordStep E (coordStep E s)).coord =
      (coordIter E s.n_workers s.coord
        { read := (mq_receive s.resQ).1,
          rc := match nextRequest (coordRecv E s.n_workers s.coord (mq_receive s.resQ).1) with
            | some m => (mq_send s.reqQ m).1
            | none => 0 }).1 ∧
    (coordStep E (coordStep E s)).pc = CPc.check ∧
    ((coordStep E (coordStep E (coordStep E s))).pc = CPc.done ↔
      (coordIter E s.n_workers s.coord
        { read := (mq_receive s.resQ).1,
          rc := match nextRequest (coordRecv E s.n_workers s.coord (mq_receive s.resQ).1) with
            | some m => (mq_send s.reqQ m).1
            | none => 0 }).2.2 = true) := by
  have e1 : coordStep E s =
      { s with
        coord := coordRecv E s.n_workers s.coord (mq_receive s.resQ).1
        resQ := (mq_receive s.resQ).2
        pc := CPc.send
        collected := s.collected ++ (mq_receive s.resQ).1.toList } := by
    rw [coordStep]
    simp [h]
  rw [e1]
  cases hn : nextRequest (coordRecv E s.n_workers s.coord (mq_receive s.resQ).1) with
  | none =>
    have e2 : ∀ rc, coordSend (coordRecv E s.n_workers s.coord (mq_receive s.resQ).1) rc =
        (coordRecv E s.n_workers s.coord (mq_receive s.resQ).1, none) := by
      intro rc
      simp [coordSend, hn]
    simp only [coordStep, hn, coordIter, e2, shutdown]
    refine ⟨trivial, trivial, ?_⟩
    split <;> simp_all
  | some m =>
    simp only [coordStep, hn, coordIter, shutdown]
    refine ⟨trivial, trivial, ?_⟩
    split <;> simp_all

theorem held_nil_of_mem {V : Type} (ps : List (Proc V)) (h : ∀ p ∈ ps, inflight p = []) :
    heldByProcs ps = [] := by
  induction ps with
  | nil => rfl
  | cons a ps ih =>
    simp only [heldByProcs, List.append_eq_nil]
    exact ⟨h a (List.mem_cons_self _ _), ih (fun p hp => h p (List.mem_cons_of_mem _ hp))⟩

/-- A round that has collected `N_TASKS` responses leaves the queues empty and no task with
a child, so the next round, whatever children of earlier rounds are still there, starts in a
state of which the invariant holds again. -/
theorem startRound_inv {V : Type} (init : Fin N_TASKS → compute_task V) (s0 : Sys V)
    (k : Nat) (h : RoundInv init s0) (hdone : N_TASKS ≤ s0.coord.response_count) :
    RoundInv init (startRound s0 k) := by
  obtain ⟨_, _, _, _, _, _, hq1, hq2, hq3, _⟩ := (roundInv_facts init s0 h).2.2.2.2.2 hdone
  refine ⟨h.catalog, ?_, rfl, rfl, ?_, ?_⟩
  · show 0 ≤ N_TASKS
    exact Nat.zero_le _
  · intro x
    simp [startRound, roundStart, hq1, hq2, held_append, held_replicate,
      held_nil_of_mem s0.procs hq3]
  · intro r hr
    simp [startRound] at hr

/-- The invariant, and with it the facts of `roundInv_facts`, holds throughout every later
round as well, under any interleaving. -/
theorem next_round_inv {V : Type} (E : Ext V) (init : Fin N_TASKS → compute_task V)
    (s0 : Sys V) (k : Nat) (sched : List (Action V)) (h : RoundInv init s0)
    (hdone : N_TASKS ≤ s0.coord.response_count) :
    RoundInv init (run E (startRound s0 k) sched) :=
  run_inv E init sched _ (startRound_inv init s0 k h hdone)

/-! ## Teardown of a round -/

theorem phase_modify {V : Type} (f : Proc V → Proc V) (hf : ∀ p, (f p).phase = p.phase)
    (ps : List (Proc V)) (j i : Nat) :
    ((ps.modify f j)[i]?).map Proc.phase = (ps[i]?).map Proc.phase := by
  rw [List.getElem?_modify]
  cases ps[i]? with
  | none => rfl
  | some p =>
    simp only [Option.map_eq_map, Option.map_some']
    split
    · rw [hf]
    · rfl

theorem phase_deliver {V : Type} (ps : List (Proc V)) (p i : Nat) :
    ((deliver ps p)[i]?).map Proc.phase = (ps[i]?).map Proc.phase := by
  unfold deliver
  apply phase_modify
  intro pr
  cases h : pr.phase <;> simp [h]

theorem phase_foldl_deliver {V : Type} (pid : List Nat) (cs : List Nat) (i : Nat) :
    ∀ ps : List (Proc V),
      ((cs.foldl
        (fun procs c =>
          match pid[c]? with
          | some p => deliver procs p
          | none => procs) ps)[i]?).map Proc.phase = (ps[i]?).map Proc.phase := by
  induction cs with
  | nil =>
    intro ps
    rfl
  | cons c cs ih =>
    intro ps
    rw [List.foldl_cons, ih]
    cases pid[c]? with
    | none => rfl
    | some p => exact phase_deliver ps p i

theorem phase_reapOne {V : Type} (ph : WPhase V) (hph : ∀ st, ph ≠ WPhase.exited st) :
    ∀ (ps : List (Proc V)) (i : Nat), (ps[i]?).map Proc.phase = some ph →
      ((reapOne ps)[i]?).map Proc.phase = some ph := by
  intro ps
  induction ps with
  | nil =>
    intro i h
    simp at h
  | cons a ps ih =>
    intro i h
    cases i with
    | zero =>
      simp only [List.getElem?_cons_zero, Option.map_some', Option.some.injEq] at h
      cases ha : a.phase with
      | exited st => exact absurd (ha.symm.trans h) (fun e => hph st e.symm)
      | polling => simpa [reapOne, ha] using h
      | sending m => simpa [reapOne, ha] using h
      | checking => simpa [reapOne, ha] using h
      | reaped => simpa [reapOne, ha] using h
    | succ i =>
      simp only [List.getElem?_cons_succ] at h
      cases ha : a.phase with
      | exited st => simpa [reapOne, ha] using h
      | polling => simpa [reapOne, ha] using ih i h
      | sending m => simpa [reapOne, ha] using ih i h
      | checking => simpa [reapOne, ha] using ih i h
      | reaped => simpa [reapOne, ha] using ih i h

/-- The shutdown block terminates no child: a child that is polling the request queue when
the parent enters the block is polling when the parent leaves it. -/
theorem shutdown_keeps_polling {V : Type} (s : Sys V) (i : Nat)
    (h : (s.procs[i]?).map Proc.phase = some WPhase.polling) :
    (((shutdown s).procs)[i]?).map Proc.phase = some WPhase.polling := by
  show ((reapOne (killAll s))[i]?).map Proc.phase = some WPhase.polling
  apply phase_reapOne WPhase.polling (fun st e => by cases e)
  exact (phase_foldl_deliver s.pid (List.range s.n_workers) i s.procs).trans h

/-- C6 does not hold of the code: in the round with one worker under `serialSchedule`, the
parent collects all `N_TASKS` responses, signals its worker and leaves the shutdown block,
and the worker has then neither exited nor been waited for: it is polling the request queue
with its flag set.  In the next round it is still there: it receives the request of task 0
of that round and, once its response is accepted, exits. -/
theorem teardown_leaves_worker_running :
    afterRoundOne.pc = CPc.done ∧
    afterRoundOne.coord.response_count = N_TASKS ∧
    afterRoundOne.procs = [{ phase := WPhase.polling, is_sigusr1 := 1 }] ∧
    (run extInt (startRound afterRoundOne 2) roundTwoStart).procs =
      [{ phase := WPhase.sending { id := 0, result := 5000000, time := 7 }, is_sigusr1 := 1 },
       { phase := WPhase.polling, is_sigusr1 := 0 },
       { phase := WPhase.polling, is_sigusr1 := 0 }] ∧
    (run extInt (startRound afterRoundOne 2)
      (roundTwoStart ++ [Action.worker 0 true 7, Action.worker 0 true 7])).procs =
      [{ phase := WPhase.exited EXIT_SUCCESS, is_sigusr1 := 1 },
       { phase := WPhase.polling, is_sigusr1 := 0 },
       { phase := WPhase.polling, is_sigusr1 := 0 }] := by
  refine ⟨by decide, by decide, by decide, by decide, by decide⟩

end MessageQueueDemo
